import Mathlib

/-!
# Verification of the chasm tracking/sharing/restore coordinator

Shallow embedding of `src/util.go` (package main of the chasm backup tool):
the `ChasmPref` state model, the ignore filter (`IsValidPath`), the
add/delete pipelines (`AddFile`, `DeleteFile`/`DeleteDir`), the restore
pipeline (`Restore`, `restoreShareID`), root initialization
(`CreateOrLoadChasmDir`) and preference persistence (`ChasmPref.Save`).

Modelling conventions:

* Filesystem paths are modelled as canonical segment lists (`List String`).
  On canonical paths Go's `path.Clean` is the identity, `path.Join` is
  list append, `path.Split` splits off the last segment, and
  `filepath.Base` is the last segment.
* File contents are modelled by the inductive `Content`: `Content.text ls`
  stands for a plain byte string whose `bufio.Scanner` line decomposition
  is `ls` (so the empty byte string is `Content.text []`), and
  `Content.encoded p` stands for the `json.MarshalIndent` serialization of
  the exported fields of a `ChasmPref` value `p` (whose unexported `root`
  field is zeroed, since Go's JSON layer never serializes it).
  `json.Unmarshal` into a `ChasmPref` succeeds exactly on `encoded` values.
* The external capabilities consumed by the core — the SHA-256/base64url
  fingerprint, the secret-sharing `CreateShares`/`CombineShares` transform,
  `filepath.Match` glob matching, and the `RandomShareID` generator — are
  fields of an `Env` record; the laws the spec assumes about the sharing
  transform are collected in `EnvOK`.
* Backends: the i-th entry of `World.stores` is the share set held by the
  i-th cloud store in the fixed `AllCloudStores` enumeration, and
  `World.staging i` says whether that store's `Restore()` capability can
  produce a staging location.  A staging location produced by backend i
  holds exactly the shares of backend i, one file per `ShareID`.
* Effects (uploads, backend deletes, staging fetches, saves, file writes,
  directory creations, console reports) are returned as an `Event` list.
* Go's unbounded recursion in `AddFile` (directory children) and
  `DeleteFile`/`DeleteDir` is modelled with an explicit fuel parameter and
  a work list; fuel is consumed on every step, so the definitions are
  structural and computable.  Go map iteration order is determinized to
  association-list order.
-/

/-! ## Paths and basic data -/

/-- A filesystem path in canonical segment form. -/
abbrev FPath := List String

/-- An opaque share identifier (Go `ShareID`, a string). -/
abbrev ShareID := String

/-- Go `path.Clean` acting on canonical segment paths (the identity). -/
def pathClean (p : FPath) : FPath := p

/-- Go `path.Join` on canonical segment paths. -/
def pathJoin (p : FPath) (name : String) : FPath := p ++ [name]

/-- Go `path.Split` followed by `path.Clean` of the directory part:
the parent directory of a path. -/
def parentDir (p : FPath) : FPath := p.dropLast

/-- Go `filepath.Base` on canonical segment paths: the last segment
(`"."` for the empty path). -/
def pathBase (p : FPath) : String := p.getLastD "."

/-- `FileShare` from `util.go`: a share id together with the base64url
encoded SHA-256 fingerprint of the tracked file's content. -/
structure FileShare where
  sid : ShareID
  hash : String
  deriving DecidableEq, Repr

/-- `ChasmPref` from `util.go`: the coordinator state.  `root` is the Go
struct's unexported (hence unserialized) root path; `folderStores` and
`gdriveStores` carry one opaque configuration name per registered backend
of each kind (the coordinator core only ever uses their count and order). -/
structure ChasmPref where
  root : FPath
  folderStores : List String
  gdriveStores : List String
  fileMap : List (FPath × FileShare)
  dirMap : List FPath
  deriving DecidableEq, Repr

/-- File contents: either a plain byte string (represented by its line
decomposition) or the JSON serialization of a `ChasmPref`
(with the unexported `root` zeroed by `ChasmPref.strip`). -/
inductive Content where
  | text (lines : List String)
  | encoded (p : ChasmPref)
  deriving DecidableEq, Repr

/-- `Share` from the chasm sources: a share id plus opaque share bytes. -/
structure Share where
  sid : ShareID
  data : Content
  deriving DecidableEq, Repr

/-- Go `len(bytes) == 0` on modelled contents: only the empty plain byte
string is empty (a JSON serialization is never the empty string). -/
def Content.isEmpty : Content → Bool
  | .text ls => ls.isEmpty
  | .encoded _ => false

/-- The `bufio.Scanner` line decomposition of a content (used only for the
`.chasmignore` rules file; scanning a JSON state file is never done by the
code, we return no lines for it). -/
def Content.scanLines : Content → List String
  | .text ls => ls
  | .encoded _ => []

/-- The serializable part of a `ChasmPref`: Go's `json.Marshal` drops the
unexported `root` field. -/
def ChasmPref.strip (p : ChasmPref) : ChasmPref := { p with root := [] }

/-! ## Association lists (Go maps and directories-as-kv-stores) -/

/-- Lookup in an association list (Go map read / file lookup). -/
def alookup {β : Type} : List (FPath × β) → FPath → Option β
  | [], _ => none
  | (k, v) :: rest, key => if key = k then some v else alookup rest key

/-- Insert-or-replace in an association list (Go map write / file write). -/
def aupsert {β : Type} : List (FPath × β) → FPath → β → List (FPath × β)
  | [], key, v => [(key, v)]
  | (k, v') :: rest, key, v =>
    if key = k then (k, v) :: rest else (k, v') :: aupsert rest key v

/-- Remove a key from an association list (Go `delete`). -/
def aerase {β : Type} : List (FPath × β) → FPath → List (FPath × β)
  | [], _ => []
  | (k, v') :: rest, key =>
    if key = k then rest else (k, v') :: aerase rest key

/-- Lookup in a share store (keys are `ShareID`s). -/
def slookup : List (ShareID × Content) → ShareID → Option Content
  | [], _ => none
  | (k, v) :: rest, key => if key = k then some v else slookup rest key

/-- Insert-or-replace in a share store. -/
def supsert : List (ShareID × Content) → ShareID → Content → List (ShareID × Content)
  | [], key, v => [(key, v)]
  | (k, v') :: rest, key, v =>
    if key = k then (k, v) :: rest else (k, v') :: supsert rest key v

/-- Remove a share from a share store. -/
def serase : List (ShareID × Content) → ShareID → List (ShareID × Content)
  | [], _ => []
  | (k, v') :: rest, key =>
    if key = k then rest else (k, v') :: serase rest key

/-- Membership of a path in a path set (Go `DirMap` read). -/
def pmem (l : List FPath) (p : FPath) : Bool := l.contains p

/-- Insert a path into a path set (Go `DirMap[p] = true`). -/
def pinsert (l : List FPath) (p : FPath) : List FPath :=
  if l.contains p then l else l ++ [p]

/-- Remove a path from a path set (Go `delete(DirMap, p)`). -/
def perase (l : List FPath) (p : FPath) : List FPath := l.erase p

theorem alookup_aupsert_self {β : Type} (m : List (FPath × β)) (k : FPath) (v : β) :
    alookup (aupsert m k v) k = some v := by
  induction m with
  | nil => simp [alookup, aupsert]
  | cons hd tl ih =>
    obtain ⟨k', v'⟩ := hd
    by_cases h : k = k' <;> simp [alookup, aupsert, h, ih]

theorem alookup_aupsert_ne {β : Type} (m : List (FPath × β)) (k k' : FPath) (v : β)
    (h : k' ≠ k) : alookup (aupsert m k v) k' = alookup m k' := by
  induction m with
  | nil => simp [alookup, aupsert, h]
  | cons hd tl ih =>
    obtain ⟨k₀, v₀⟩ := hd
    by_cases hk : k = k₀
    · subst hk; simp [alookup, aupsert, h]
    · by_cases hk' : k' = k₀ <;> simp [alookup, aupsert, hk, hk', ih]

theorem alookup_aerase_ne {β : Type} (m : List (FPath × β)) (k k' : FPath)
    (h : k' ≠ k) : alookup (aerase m k) k' = alookup m k' := by
  induction m with
  | nil => simp [aerase]
  | cons hd tl ih =>
    obtain ⟨k₀, v₀⟩ := hd
    by_cases hk : k = k₀
    · subst hk; simp [alookup, aerase, h]
    · by_cases hk' : k' = k₀ <;> simp [alookup, aerase, hk, hk', ih]

theorem slookup_supsert_self (m : List (ShareID × Content)) (k : ShareID) (v : Content) :
    slookup (supsert m k v) k = some v := by
  induction m with
  | nil => simp [slookup, supsert]
  | cons hd tl ih =>
    obtain ⟨k', v'⟩ := hd
    by_cases h : k = k' <;> simp [slookup, supsert, h, ih]

theorem slookup_supsert_ne (m : List (ShareID × Content)) (k k' : ShareID) (v : Content)
    (h : k' ≠ k) : slookup (supsert m k v) k' = slookup m k' := by
  induction m with
  | nil => simp [slookup, supsert, h]
  | cons hd tl ih =>
    obtain ⟨k₀, v₀⟩ := hd
    by_cases hk : k = k₀
    · subst hk; simp [slookup, supsert, h]
    · by_cases hk' : k' = k₀ <;> simp [slookup, supsert, hk, hk', ih]

/-! ## External capabilities and the world -/

/-- The external capabilities consumed by the coordinator core, per the
spec's scope section: `sha` is `SHA256Base64URL` (fingerprinting), `create`
is `CreateShares` (secret-sharing split: data, share id, number of shares),
`combine` is `CombineShares`, `globMatch` is `filepath.Match` (pattern,
base name), and `fresh` is the `RandomShareID` stream (indexed by how many
ids were drawn before). -/
structure Env where
  sha : Content → String
  create : Content → ShareID → Nat → List Share
  combine : List Share → Content
  globMatch : String → String → Bool
  fresh : Nat → ShareID

/-- `checkSHA2` from `util.go`: compare a stored fingerprint with the
fingerprint of the given bytes. -/
def checkSHA2 (env : Env) (hash : String) (data : Content) : Bool :=
  env.sha data == hash

/-- The laws the spec assumes of the secret-sharing capability:
`split(data, n)` yields exactly `n` shares, each labelled with the
requested share id, and combining them restores the data. -/
structure EnvOK (env : Env) : Prop where
  combine_create : ∀ d s n, 1 ≤ n → env.combine (env.create d s n) = d
  create_length : ∀ d s n, (env.create d s n).length = n
  create_sid : ∀ d s n, ∀ sh ∈ env.create d s n, sh.sid = s

/-- A cloud-store reference, in the fixed `AllCloudStores` enumeration:
local folder stores come first, then Google-Drive stores, each group in
configuration order. -/
inductive StoreRef where
  | folder (name : String)
  | gdrive (name : String)
  deriving DecidableEq, Repr

/-- The share set held by one backend: share id to share bytes. -/
abbrev Store := List (ShareID × Content)

/-- A filesystem node: a regular file with contents, or a directory with
its (ordered) child entry names. -/
inductive FSNode where
  | file (c : Content)
  | dir (children : List String)
  deriving DecidableEq, Repr

/-- The local filesystem: path to node. -/
abbrev FS := List (FPath × FSNode)

/-- Observable effects of a coordinator operation. -/
inductive Report where
  | ignoredPath
  | notAccessible
  | readFailure
  | notTracked
  | setupIncomplete
  | restoreFailed
  | prefsRestoreFailed
  | shareReadFailed (sid : ShareID)
  | insufficientShares (sid : ShareID)
  | integrityMismatch (sid : ShareID)
  | done
  deriving DecidableEq, Repr

/-- One observable action of a run: backend calls, persistence, local
filesystem writes, and console reports. -/
inductive Event where
  | upload (cs : StoreRef) (sh : Share)
  | bdelete (cs : StoreRef) (sid : ShareID)
  | stage (cs : StoreRef)
  | saved
  | wrote (p : FPath) (c : Content)
  | mkdir (p : FPath)
  | report (r : Report)
  deriving DecidableEq, Repr

/-- The whole mutable world an operation acts on: the in-process
`preferences` global, the local filesystem, the share sets held by the
backends (indexed like `AllCloudStores`), each backend's ability to
produce a staging location, and the `RandomShareID` draw counter. -/
structure World where
  prefs : ChasmPref
  fs : FS
  stores : List Store
  staging : List Bool
  rng : Nat
  deriving Repr

/-! ## Constants and small helpers from `util.go` -/

/-- `chasmPrefFile = ".chasm"`. -/
def chasmPrefFile : String := ".chasm"

/-- `chasmIgnoreFile = ".chasmignore"`. -/
def chasmIgnoreFile : String := ".chasmignore"

/-- `RegisteredServices`: count of all registered backends. -/
def ChasmPref.RegisteredServices (p : ChasmPref) : Nat :=
  p.folderStores.length + p.gdriveStores.length

/-- `NeedSetup`: fewer than 2 registered backends. -/
def ChasmPref.NeedSetup (p : ChasmPref) : Bool :=
  p.RegisteredServices < 2

/-- `AllCloudStores`: the fixed positional enumeration of backends —
all folder stores (configuration order) followed by all gdrive stores
(configuration order). -/
def ChasmPref.AllCloudStores (p : ChasmPref) : List StoreRef :=
  p.folderStores.map StoreRef.folder ++ p.gdriveStores.map StoreRef.gdrive

/-- `ChasmPref.Save`: marshal the live preferences and write them to
`root/.chasm`.  Returns the updated filesystem and the persistence event. -/
def ChasmPref.Save (p : ChasmPref) (fs : FS) : FS × List Event :=
  (aupsert fs (pathJoin p.root chasmPrefFile) (FSNode.file (Content.encoded p.strip)),
   [Event.saved])

/-- `IsValidPath` from `util.go`: read `root/.chasmignore` fresh; if it is
unreadable every path is valid (fail-open); otherwise the path is invalid
exactly when some scanned line glob-matches the path's base name. -/
def IsValidPath (env : Env) (fs : FS) (root : FPath) (filePath : FPath) : Bool :=
  match alookup fs (pathJoin root chasmIgnoreFile) with
  | some (FSNode.file c) =>
    !(c.scanLines.any (fun pattern => env.globMatch pattern (pathBase filePath)))
  | _ => true

/-! ## The add pipeline (`AddFile`) -/

/-- The regular-file branch of `AddFile`: record `{sid, sha(contents)}`
in the `FileMap`, split the contents into one share per registered
backend, upload share i to backend i in `AllCloudStores` order, and save
the preferences unless the share id is the reserved `.chasm` id.
`rng'` is the `RandomShareID` counter after the id was chosen. -/
def addFileCore (env : Env) (w : World) (p : FPath) (c : Content)
    (sid : ShareID) (rng' : Nat) : World × List Event :=
  let prefs1 := { w.prefs with
    fileMap := aupsert w.prefs.fileMap p { sid := sid, hash := env.sha c } }
  let acs := prefs1.AllCloudStores
  let shares := env.create c sid acs.length
  let uploadEvents := (acs.zip shares).map (fun z => Event.upload z.1 z.2)
  let stores' := List.zipWith (fun st sh => supsert st sh.sid sh.data) w.stores shares
  let w1 := { w with prefs := prefs1, stores := stores', rng := rng' }
  if sid = chasmPrefFile then (w1, uploadEvents)
  else ({ w1 with fs := (prefs1.Save w1.fs).1 }, uploadEvents ++ [Event.saved])

/-- The body of `AddFile` from `util.go`, processing a work list of paths
depth-first (a directory prepends its children, exactly Go's recursion
order).  Per path: the ignore filter first; a failed stat reports
`NotAccessible`; a directory is marked in `DirMap` and its children are
queued; a regular file reuses its tracked share id (or draws a fresh one),
records `{sid, sha(contents)}` in `FileMap`, splits the contents into one
share per registered backend, uploads share i to backend i, and saves the
preferences unless the share id is the reserved `.chasm` id.  (Go re-reads
the file after the stat; in this sequential model the second read returns
the stat'ed contents, so `ReadFailure` cannot fire here.)  Fuel is
consumed on every step; the theorems use enough fuel for the work list. -/
def addLoop (env : Env) : Nat → World → List FPath → World × List Event
  | 0, w, _ => (w, [])
  | _ + 1, w, [] => (w, [])
  | fuel + 1, w, p :: rest =>
    if IsValidPath env w.fs w.prefs.root p = false then
      let (w', evs) := addLoop env fuel w rest
      (w', Event.report Report.ignoredPath :: evs)
    else
      match alookup w.fs p with
      | none =>
        let (w', evs) := addLoop env fuel w rest
        (w', Event.report Report.notAccessible :: evs)
      | some (FSNode.dir children) =>
        let w1 := { w with prefs :=
          { w.prefs with dirMap := pinsert w.prefs.dirMap (pathClean p) } }
        addLoop env fuel w1 (children.map (fun name => pathJoin p name) ++ rest)
      | some (FSNode.file c) =>
        let step :=
          match alookup w.prefs.fileMap p with
          | some existing => addFileCore env w p c existing.sid w.rng
          | none => addFileCore env w p c (env.fresh w.rng) (w.rng + 1)
        let next := addLoop env fuel step.1 rest
        (next.1, step.2 ++ next.2)

/-- `AddFile` from `util.go`. -/
def AddFile (env : Env) (fuel : Nat) (w : World) (p : FPath) : World × List Event :=
  addLoop env fuel w [p]

/-! ## The delete pipeline (`DeleteFile` / `DeleteDir`) -/

/-- The tracked-file branch of `DeleteFile`: tell every backend to delete
the share with the record's id, drop the `FileMap` entry, save. -/
def deleteFileCore (w : World) (p : FPath) (fshare : FileShare) :
    World × List Event :=
  let acs := w.prefs.AllCloudStores
  let delEvents := acs.map (fun cs => Event.bdelete cs fshare.sid)
  let stores' := w.stores.map (fun st => serase st fshare.sid)
  let prefs1 := { w.prefs with fileMap := aerase w.prefs.fileMap p }
  ({ w with prefs := prefs1, stores := stores', fs := (prefs1.Save w.fs).1 },
   delEvents ++ [Event.saved])

/-- The body of `DeleteFile`/`DeleteDir` from `util.go`, processing a work
list of paths.  Per path: the ignore filter first; if the cleaned path is
a tracked directory, `DeleteDir` removes its `DirMap` entry and queues
every tracked file whose immediate parent directory (`path.Split` then
`path.Clean`) equals the directory — each queued file goes through the
full `DeleteFile` checks again; if the path is a tracked file, every
backend is told to delete its share, the `FileMap` entry is removed and
the preferences are saved; otherwise `NotTracked` is reported. -/
def deleteLoop (env : Env) : Nat → World → List FPath → World × List Event
  | 0, w, _ => (w, [])
  | _ + 1, w, [] => (w, [])
  | fuel + 1, w, p :: rest =>
    if IsValidPath env w.fs w.prefs.root p = false then
      let next := deleteLoop env fuel w rest
      (next.1, Event.report Report.ignoredPath :: next.2)
    else if pmem w.prefs.dirMap (pathClean p) then
      let w1 := { w with prefs :=
        { w.prefs with dirMap := perase w.prefs.dirMap (pathClean p) } }
      let ks := (w1.prefs.fileMap.filter
        (fun e => pathClean (parentDir e.1) == pathClean p)).map Prod.fst
      deleteLoop env fuel w1 (ks ++ rest)
    else
      match alookup w.prefs.fileMap p with
      | some fshare =>
        let step := deleteFileCore w p fshare
        let next := deleteLoop env fuel step.1 rest
        (next.1, step.2 ++ next.2)
      | none =>
        let next := deleteLoop env fuel w rest
        (next.1, Event.report Report.notTracked :: next.2)

/-- `DeleteFile` from `util.go`. -/
def DeleteFile (env : Env) (fuel : Nat) (w : World) (p : FPath) : World × List Event :=
  deleteLoop env fuel w [p]

/-! ## The restore pipeline (`Restore` / `restoreShareID`) -/

/-- `os.MkdirAll`: create a directory node if the path holds nothing yet
(idempotent; a clash with an existing file is an ignored error). -/
def mkdirAllFS (fs : FS) (p : FPath) : FS :=
  if (alookup fs p).isSome then fs else aupsert fs p (FSNode.dir [])

/-- Step (1) of `Restore`: ask each backend for a staging location in
enumeration order, aborting at the first backend whose `Restore()`
capability fails.  Returns the staging events plus whether all backends
produced a staging location. -/
def stageLoop : List (StoreRef × Bool) → List Event × Bool
  | [] => ([], true)
  | (cs, ok) :: rest =>
    if ok then
      let (evs, b) := stageLoop rest
      (Event.stage cs :: evs, b)
    else
      ([Event.stage cs, Event.report Report.restoreFailed], false)

/-- `restoreShareID` from `util.go`: read the share file named `sid` from
every staging location (one per backend, holding that backend's shares);
a missing piece is reported and skipped.  If fewer pieces than
`RegisteredServices` were found the result is the empty byte string plus
an `InsufficientShares` report; otherwise the collected pieces are
combined.  (Go leaves a zero `Share` in the slice at a missed index; that
zero value reaches `CombineShares` only when more stores than
`RegisteredServices` exist.) -/
def restoreShareID (env : Env) (n : Nat) (stores : List Store) (sid : ShareID) :
    Content × List Event :=
  let reads := stores.map (fun st => slookup st sid)
  let missEvents := reads.filterMap (fun r =>
    if r.isNone then some (Event.report (Report.shareReadFailed sid)) else none)
  let found := reads.filterMap id
  if found.length < n then
    (Content.text [], missEvents ++ [Event.report (Report.insufficientShares sid)])
  else
    (env.combine (reads.map (fun r =>
      match r with
      | some d => { sid := sid, data := d }
      | none => { sid := "", data := Content.text [] })),
     missEvents)

/-- Step (3) of `Restore`: create every directory of the recovered
manifest and merge it into the live `DirMap`. -/
def restoreDirs : List FPath → FS → List FPath → FS × List FPath × List Event
  | [], fs, dm => (fs, dm, [])
  | d :: rest, fs, dm =>
    let fs1 := mkdirAllFS fs d
    let dm1 := pinsert dm d
    let (fs', dm', evs) := restoreDirs rest fs1 dm1
    (fs', dm', Event.mkdir d :: evs)

/-- Step (4) of `Restore`: for every manifest `FileRecord`, reconstruct
its bytes with `restoreShareID`; an empty result is skipped silently; a
non-`.chasm` share id whose combined bytes fail the fingerprint check is
skipped with `IntegrityMismatch`; otherwise the bytes are written to the
original path. -/
def restoreFiles (env : Env) (n : Nat) (stores : List Store) :
    List (FPath × FileShare) → FS → FS × List Event
  | [], fs => (fs, [])
  | e :: rest, fs =>
    let c := (restoreShareID env n stores e.2.sid).1
    let rev := (restoreShareID env n stores e.2.sid).2
    if c.isEmpty then
      let next := restoreFiles env n stores rest fs
      (next.1, rev ++ next.2)
    else if (e.2.sid != chasmPrefFile) && !(checkSHA2 env e.2.hash c) then
      let next := restoreFiles env n stores rest fs
      (next.1, rev ++ [Event.report (Report.integrityMismatch e.2.sid)] ++ next.2)
    else
      let next := restoreFiles env n stores rest (aupsert fs e.1 (FSNode.file c))
      (next.1, rev ++ [Event.wrote e.1 c] ++ next.2)

/-- `Restore` from `util.go`: stage every backend (all-or-nothing),
reconstruct the `.chasm` preferences from the reserved metadata id, abort
if they cannot be parsed, then recreate the manifest's directories and
attempt every manifest file. -/
def Restore (env : Env) (w : World) : World × List Event :=
  let acs := w.prefs.AllCloudStores
  let sev := (stageLoop (acs.zip w.staging)).1
  let ok := (stageLoop (acs.zip w.staging)).2
  if ok = false then (w, sev)
  else
    let n := w.prefs.RegisteredServices
    let chasmFileBytes := (restoreShareID env n w.stores chasmPrefFile).1
    let mev := (restoreShareID env n w.stores chasmPrefFile).2
    match chasmFileBytes with
    | Content.encoded restoredPrefs =>
      let fs1 := (restoreDirs restoredPrefs.dirMap w.fs w.prefs.dirMap).1
      let dm1 := (restoreDirs restoredPrefs.dirMap w.fs w.prefs.dirMap).2.1
      let dev := (restoreDirs restoredPrefs.dirMap w.fs w.prefs.dirMap).2.2
      let fs2 := (restoreFiles env n w.stores restoredPrefs.fileMap fs1).1
      let fev := (restoreFiles env n w.stores restoredPrefs.fileMap fs1).2
      ({ w with prefs := { w.prefs with dirMap := dm1 }, fs := fs2 },
       sev ++ mev ++ dev ++ fev ++ [Event.report Report.done])
    | _ => (w, sev ++ mev ++ [Event.report Report.prefsRestoreFailed])

/-! ## Root initialization (`CreateOrLoadChasmDir`) -/

/-- `CreateOrLoadChasmDir` from `util.go`: ensure the root directory
exists; if `root/.chasm` is unreadable start fresh maps with the metadata
path bound to the reserved `.chasm` id and an empty fingerprint, otherwise
unmarshal it into the live preferences (a parse failure is silently
ignored, leaving the previous preferences); if `root/.chasmignore` is
unreadable, track it and write the default rule set (`.DS_Store`); then
record the root and save. -/
def CreateOrLoadChasmDir (env : Env) (w : World) (root : FPath) : World :=
  let fs0 := mkdirAllFS w.fs root
  let chasmFilePath := pathJoin root chasmPrefFile
  let prefs1 :=
    match alookup fs0 chasmFilePath with
    | some (FSNode.file (Content.encoded q)) => { q with root := w.prefs.root }
    | some (FSNode.file (Content.text _)) => w.prefs
    | _ =>
      { w.prefs with
        dirMap := ([] : List FPath)
        fileMap := [(chasmFilePath, { sid := chasmPrefFile, hash := "" })] }
  let chasmIgnorePath := pathJoin root chasmIgnoreFile
  let defaultIgnore := Content.text [".DS_Store"]
  let ignoreRecord : FileShare := { sid := chasmIgnoreFile, hash := env.sha defaultIgnore }
  let ignorePresent : Bool :=
    match alookup fs0 chasmIgnorePath with
    | some (FSNode.file _) => true
    | _ => false
  let prefs2 :=
    if ignorePresent then prefs1
    else { prefs1 with fileMap := aupsert prefs1.fileMap chasmIgnorePath ignoreRecord }
  let fs1 :=
    if ignorePresent then fs0
    else aupsert fs0 chasmIgnorePath (FSNode.file defaultIgnore)
  let prefs3 := { prefs2 with root := root }
  { w with prefs := prefs3, fs := (prefs3.Save fs1).1 }

/-! ## The CLI operation surface (setup gate) -/

/-- Modelled from the spec: the `add` entry point of the operation surface
(owned by the CLI collaborator, not under `src/`) refuses with
`SetupIncomplete` when `NeedSetup` holds — fewer than 2 registered
backends — and otherwise runs `AddFile`. -/
def addCommand (env : Env) (fuel : Nat) (w : World) (p : FPath) : World × List Event :=
  if w.prefs.NeedSetup then (w, [Event.report Report.setupIncomplete])
  else AddFile env fuel w p

/-- Modelled from the spec: the `delete` entry point of the operation
surface (owned by the CLI collaborator, not under `src/`) refuses with
`SetupIncomplete` when `NeedSetup` holds and otherwise runs `DeleteFile`. -/
def deleteCommand (env : Env) (fuel : Nat) (w : World) (p : FPath) : World × List Event :=
  if w.prefs.NeedSetup then (w, [Event.report Report.setupIncomplete])
  else DeleteFile env fuel w p

/-- Modelled from the spec: the `restore` entry point of the operation
surface (owned by the CLI collaborator, not under `src/`) refuses with
`SetupIncomplete` when `NeedSetup` holds and otherwise runs `Restore`. -/
def restoreCommand (env : Env) (w : World) : World × List Event :=
  if w.prefs.NeedSetup then (w, [Event.report Report.setupIncomplete])
  else Restore env w

/-! ## A concrete environment for witnesses -/

/-- A concrete instantiation of the external capabilities, used to
evaluate the theorems on explicit inputs: a constant fingerprint, the
degenerate (but lawful) n-of-n sharing that stores the data in every
share and combines by taking the first, equality glob matching, and a
counter-indexed id stream. -/
def env0 : Env where
  sha := fun _ => "X"
  create := fun d s n => List.replicate n { sid := s, data := d }
  combine := fun shares => (shares.headD { sid := "", data := Content.text [] }).data
  globMatch := fun pattern base => pattern == base
  fresh := fun k => "sid" ++ Nat.repr k

theorem envOK_env0 : EnvOK env0 := by
  refine ⟨?_, ?_, ?_⟩
  · intro d s n hn
    match n, hn with
    | n + 1, _ => simp [env0, List.replicate]
  · intro d s n
    simp [env0]
  · intro d s n sh hsh
    simpa [env0] using (List.eq_of_mem_replicate hsh) ▸ rfl

/-! ## Infrastructure lemmas -/

theorem addLoop_nil (env : Env) (fuel : Nat) (w : World) :
    addLoop env fuel w [] = (w, []) := by
  cases fuel <;> rfl

theorem deleteLoop_nil (env : Env) (fuel : Nat) (w : World) :
    deleteLoop env fuel w [] = (w, []) := by
  cases fuel <;> rfl

/-- With no `.chasmignore` file at the root, every path is valid
(fail-open filter). -/
theorem IsValidPath_no_ignore (env : Env) (fs : FS) (root : FPath) (p : FPath)
    (h : alookup fs (pathJoin root chasmIgnoreFile) = none) :
    IsValidPath env fs root p = true := by
  simp [IsValidPath, h]

theorem stageLoop_all_true (l : List (StoreRef × Bool)) (h : ∀ x ∈ l, x.2 = true) :
    stageLoop l = (l.map (fun x => Event.stage x.1), true) := by
  induction l with
  | nil => rfl
  | cons hd tl ih =>
    have h1 : hd.2 = true := h hd (List.mem_cons_self hd tl)
    have h2 : ∀ x ∈ tl, x.2 = true := fun x hx => h x (List.mem_cons_of_mem hd hx)
    simp [stageLoop, h1, ih h2]

theorem stageLoop_has_false (l : List (StoreRef × Bool)) (h : ∃ x ∈ l, x.2 = false) :
    (stageLoop l).2 = false ∧ Event.report Report.restoreFailed ∈ (stageLoop l).1 ∧
      ∀ e ∈ (stageLoop l).1,
        (∃ cs, e = Event.stage cs) ∨ e = Event.report Report.restoreFailed := by
  induction l with
  | nil => simp at h
  | cons hd tl ih =>
    by_cases hhd : hd.2 = true
    · obtain ⟨x, hx, hxf⟩ := h
      rcases List.mem_cons.mp hx with hx | hx
      · subst hx; rw [hhd] at hxf; cases hxf
      · have := ih ⟨x, hx, hxf⟩
        simp only [stageLoop, hhd, if_true]
        refine ⟨this.1, List.mem_cons_of_mem _ this.2.1, ?_⟩
        intro e he
        rcases List.mem_cons.mp he with he | he
        · exact Or.inl ⟨hd.1, he⟩
        · exact this.2.2 e he
    · have hhd' : hd.2 = false := by
        cases h2 : hd.2
        · rfl
        · exact absurd h2 hhd
      have hsl : stageLoop (hd :: tl) =
          ([Event.stage hd.1, Event.report Report.restoreFailed], false) := by
        simp [stageLoop, hhd']
      rw [hsl]
      refine ⟨rfl, by simp, ?_⟩
      intro e he
      simp only [List.mem_cons, List.mem_singleton] at he
      rcases he with he | he | he
      · exact Or.inl ⟨hd.1, he⟩
      · subst he; exact Or.inr rfl
      · simp at he

/-- Every event of `restoreShareID` is a `shareReadFailed` or
`insufficientShares` report about the requested id. -/
theorem restoreShareID_events (env : Env) (n : Nat) (stores : List Store) (sid : ShareID) :
    ∀ e ∈ (restoreShareID env n stores sid).2,
      e = Event.report (Report.shareReadFailed sid) ∨
      e = Event.report (Report.insufficientShares sid) := by
  intro e he
  unfold restoreShareID at he
  by_cases hlt :
      ((stores.map (fun st => slookup st sid)).filterMap id).length < n
  · simp only [hlt, if_true] at he
    rcases List.mem_append.mp he with he | he
    · rcases List.mem_filterMap.mp he with ⟨r, _, hr⟩
      by_cases hr' : r.isNone <;> simp [hr'] at hr
      exact Or.inl hr.symm
    · simp at he; subst he; exact Or.inr rfl
  · simp only [hlt, if_false] at he
    rcases List.mem_filterMap.mp he with ⟨r, _, hr⟩
    by_cases hr' : r.isNone <;> simp [hr'] at hr
    exact Or.inl hr.symm

/-- Rebuilding `Share` values with the id they all already carry is the
identity. -/
theorem map_share_mk (shares : List Share) (sid : ShareID)
    (h : ∀ sh ∈ shares, sh.sid = sid) :
    shares.map (fun sh => ({ sid := sid, data := sh.data } : Share)) = shares := by
  induction shares with
  | nil => rfl
  | cons hd tl ih =>
    have hhd : hd.sid = sid := h hd (List.mem_cons_self hd tl)
    have htl := ih (fun sh hx => h sh (List.mem_cons_of_mem hd hx))
    cases hd
    simp_all

/-- If every staging location holds a piece for `sid` and exactly the
expected `n` shares are collected, `restoreShareID` reports nothing and
combines the collected pieces. -/
theorem restoreShareID_all_found (env : Env) (n : Nat) (stores : List Store)
    (sid : ShareID) (shares : List Share)
    (hreads : stores.map (fun st => slookup st sid) = shares.map (fun sh => some sh.data))
    (hlen : shares.length = n)
    (hsid : ∀ sh ∈ shares, sh.sid = sid) :
    restoreShareID env n stores sid = (env.combine shares, []) := by
  have hA : ∀ l : List Share, (List.map (fun sh : Share => some sh.data) l).filterMap id =
      l.map Share.data := by
    intro l
    induction l with
    | nil => rfl
    | cons hd tl ih => simpa using ih
  have hB : ∀ l : List Share, (List.map (fun sh : Share => some sh.data) l).filterMap
      (fun r => if r.isNone then some (Event.report (Report.shareReadFailed sid)) else none) =
      [] := by
    intro l
    induction l with
    | nil => rfl
    | cons hd tl ih => simp [ih]
  have hC : (List.map (fun sh : Share => some sh.data) shares).map (fun r =>
      match r with
      | some d => ({ sid := sid, data := d } : Share)
      | none => ({ sid := "", data := Content.text [] } : Share)) = shares := by
    rw [List.map_map]
    simpa [Function.comp] using map_share_mk shares sid hsid
  have hnl : ¬ ((List.map (fun sh : Share => some sh.data) shares).filterMap id).length < n := by
    rw [hA]; simp [hlen]
  simp only [restoreShareID, hreads, hnl, ite_false, hB, hC]

/-- If some staging location lacks the piece for `sid` (and there are as
many staging locations as registered backends), `restoreShareID` gives up
with the empty byte string and an `InsufficientShares` report. -/
theorem restoreShareID_missing (env : Env) (n : Nat) (stores : List Store)
    (sid : ShareID) (hlen : stores.length = n)
    (hmiss : ∃ st ∈ stores, slookup st sid = none) :
    (restoreShareID env n stores sid).1 = Content.text [] ∧
      Event.report (Report.insufficientShares sid) ∈ (restoreShareID env n stores sid).2 := by
  have hlt : ((stores.map (fun st => slookup st sid)).filterMap id).length < n := by
    obtain ⟨st, hst, hnone⟩ := hmiss
    subst hlen
    induction stores with
    | nil => simp at hst
    | cons hd tl ih =>
      rcases List.mem_cons.mp hst with hst | hst
      · subst hst
        simp only [List.map_cons, hnone]
        have : ((tl.map (fun st => slookup st sid)).filterMap id).length ≤ tl.length := by
          calc ((tl.map (fun st => slookup st sid)).filterMap id).length
              ≤ (tl.map (fun st => slookup st sid)).length := List.length_filterMap_le _ _
            _ = tl.length := List.length_map _ _
        simpa using Nat.lt_succ_of_le this
      · have := ih hst
        simp only [List.map_cons, List.length_cons]
        cases h : slookup hd sid
        · simpa using Nat.lt_succ_of_lt this
        · simpa using Nat.succ_lt_succ this
  simp only [restoreShareID, hlt, if_true]
  simp

/-- The per-manifest-entry outcome of `Restore` step (4): `some c` when
the entry's candidate bytes `c` get written to the entry's path, `none`
when the entry is skipped (empty candidate, or failed fingerprint check
on a non-`.chasm` id). -/
def stepOutcome (env : Env) (n : Nat) (stores : List Store) (e : FPath × FileShare) :
    Option Content :=
  let c := (restoreShareID env n stores e.2.sid).1
  if c.isEmpty then none
  else if (e.2.sid != chasmPrefFile) && !(checkSHA2 env e.2.hash c) then none
  else some c

/-- The events one manifest entry contributes during `Restore` step (4). -/
def stepEvents (env : Env) (n : Nat) (stores : List Store) (e : FPath × FileShare) :
    List Event :=
  let c := (restoreShareID env n stores e.2.sid).1
  let rev := (restoreShareID env n stores e.2.sid).2
  if c.isEmpty then rev
  else if (e.2.sid != chasmPrefFile) && !(checkSHA2 env e.2.hash c) then
    rev ++ [Event.report (Report.integrityMismatch e.2.sid)]
  else rev ++ [Event.wrote e.1 c]

/-- `restoreFiles` processes the manifest entries independently: its event
log is the concatenation of the per-entry event lists. -/
theorem restoreFiles_events (env : Env) (n : Nat) (stores : List Store)
    (entries : List (FPath × FileShare)) (fs : FS) :
    (restoreFiles env n stores entries fs).2 =
      (entries.map (stepEvents env n stores)).flatten := by
  induction entries generalizing fs with
  | nil => rfl
  | cons e rest ih =>
    simp only [restoreFiles, stepEvents, List.map_cons, List.flatten_cons]
    cases hemp : (restoreShareID env n stores e.2.sid).1.isEmpty
    · cases hchk : (e.2.sid != chasmPrefFile) && !(checkSHA2 env e.2.hash
          (restoreShareID env n stores e.2.sid).1)
      · simp [hemp, hchk, ih]
      · simp [hemp, hchk, ih]
    · simp [hemp, ih]

/-- `restoreFiles` changes the filesystem exactly by writing, in order,
the candidate bytes of the entries whose `stepOutcome` is a write. -/
theorem restoreFiles_fs (env : Env) (n : Nat) (stores : List Store)
    (entries : List (FPath × FileShare)) (fs : FS) :
    (restoreFiles env n stores entries fs).1 =
      entries.foldl (fun acc e =>
        match stepOutcome env n stores e with
        | some c => aupsert acc e.1 (FSNode.file c)
        | none => acc) fs := by
  induction entries generalizing fs with
  | nil => rfl
  | cons e rest ih =>
    simp only [restoreFiles, List.foldl_cons]
    cases hemp : (restoreShareID env n stores e.2.sid).1.isEmpty
    · cases hchk : (e.2.sid != chasmPrefFile) && !(checkSHA2 env e.2.hash
          (restoreShareID env n stores e.2.sid).1)
      · simp [stepOutcome, hemp, hchk, ih]
      · simp [stepOutcome, hemp, hchk, ih]
    · simp [stepOutcome, hemp, ih]

/-- The only `wrote` event a manifest entry can contribute is a write of
its own path with its `stepOutcome` bytes. -/
theorem stepEvents_wrote (env : Env) (n : Nat) (stores : List Store)
    (e : FPath × FileShare) (f : FPath) (c : Content) :
    Event.wrote f c ∈ stepEvents env n stores e ↔
      e.1 = f ∧ stepOutcome env n stores e = some c := by
  have hrev := restoreShareID_events env n stores e.2.sid
  simp only [stepEvents, stepOutcome]
  cases hemp : (restoreShareID env n stores e.2.sid).1.isEmpty
  · cases hchk : (e.2.sid != chasmPrefFile) && !(checkSHA2 env e.2.hash
        (restoreShareID env n stores e.2.sid).1)
    · simp only [Bool.false_eq_true, if_false]
      constructor
      · intro hmem
        rcases List.mem_append.mp hmem with hmem | hmem
        · rcases hrev _ hmem with h | h <;> cases h
        · simp only [List.mem_singleton, Event.wrote.injEq] at hmem
          exact ⟨hmem.1.symm, by rw [hmem.2]⟩
      · intro ⟨h1, h2⟩
        apply List.mem_append.mpr
        right
        simp only [Option.some.injEq] at h2
        simp [h1, h2]
    · simp only [Bool.false_eq_true, if_false, if_true]
      constructor
      · intro hmem
        rcases List.mem_append.mp hmem with hmem | hmem
        · rcases hrev _ hmem with h | h <;> cases h
        · simp at hmem
      · intro ⟨_, h⟩; cases h
  · simp only [if_true]
    constructor
    · intro hmem
      rcases hrev _ hmem with h | h <;> cases h
    · intro ⟨_, h⟩; cases h

/-- A manifest entry contributes an `IntegrityMismatch` report exactly
when its candidate is nonempty, its id differs from the reserved `.chasm`
id, and the fingerprint check fails; the reported id is the entry's id. -/
theorem stepEvents_integrity (env : Env) (n : Nat) (stores : List Store)
    (e : FPath × FileShare) (s : ShareID) :
    Event.report (Report.integrityMismatch s) ∈ stepEvents env n stores e ↔
      s = e.2.sid ∧ (restoreShareID env n stores e.2.sid).1.isEmpty = false ∧
        ((e.2.sid != chasmPrefFile) && !(checkSHA2 env e.2.hash
          (restoreShareID env n stores e.2.sid).1)) = true := by
  have hrev := restoreShareID_events env n stores e.2.sid
  simp only [stepEvents]
  cases hemp : (restoreShareID env n stores e.2.sid).1.isEmpty
  · cases hchk : (e.2.sid != chasmPrefFile) && !(checkSHA2 env e.2.hash
        (restoreShareID env n stores e.2.sid).1)
    · simp only [Bool.false_eq_true, if_false]
      constructor
      · intro hmem
        rcases List.mem_append.mp hmem with hmem | hmem
        · rcases hrev _ hmem with h | h <;> cases h
        · simp at hmem
      · intro ⟨_, _, h⟩
        cases h
    · simp only [Bool.false_eq_true, if_false, if_true]
      constructor
      · intro hmem
        rcases List.mem_append.mp hmem with hmem | hmem
        · rcases hrev _ hmem with h | h <;> cases h
        · simp only [List.mem_singleton, Event.report.injEq,
            Report.integrityMismatch.injEq] at hmem
          exact ⟨hmem, by simp, by simp⟩
      · intro ⟨h1, _⟩
        apply List.mem_append.mpr
        right
        simp [h1]
  · simp only [if_true]
    constructor
    · intro hmem
      rcases hrev _ hmem with h | h <;> cases h
    · intro ⟨_, h, _⟩
      cases h

/-- The directory pass of `Restore` contributes only `mkdir` events. -/
theorem restoreDirs_events (dirs : List FPath) (fs : FS) (dm : List FPath) :
    (restoreDirs dirs fs dm).2.2 = dirs.map Event.mkdir := by
  induction dirs generalizing fs dm with
  | nil => rfl
  | cons d rest ih => simp [restoreDirs, ih]

/-! ## Upload bookkeeping -/

/-- Uploading a list of shares all carrying id `s` makes each staging
location answer a read of `s` with its own share's bytes. -/
theorem slookup_after_upload (stores : List Store) (shares : List Share) (s : ShareID)
    (hlen : stores.length = shares.length)
    (hsid : ∀ sh ∈ shares, sh.sid = s) :
    (List.zipWith (fun st sh => supsert st sh.sid sh.data) stores shares).map
        (fun st => slookup st s) =
      shares.map (fun sh => some sh.data) := by
  induction stores generalizing shares with
  | nil =>
    cases shares with
    | nil => rfl
    | cons _ _ => cases hlen
  | cons st stl ih =>
    cases shares with
    | nil => cases hlen
    | cons sh shl =>
      have hshsid : sh.sid = s := hsid sh (List.mem_cons_self sh shl)
      simp only [List.zipWith_cons_cons, List.map_cons]
      rw [ih shl (by simpa using hlen) (fun x hx => hsid x (List.mem_cons_of_mem sh hx))]
      rw [hshsid, slookup_supsert_self]

/-- Uploading shares whose id differs from `s` leaves reads of `s`
unchanged. -/
theorem slookup_after_upload_ne (stores : List Store) (shares : List Share) (s : ShareID)
    (hlen : stores.length = shares.length)
    (hsid : ∀ sh ∈ shares, sh.sid ≠ s) :
    (List.zipWith (fun st sh => supsert st sh.sid sh.data) stores shares).map
        (fun st => slookup st s) =
      stores.map (fun st => slookup st s) := by
  induction stores generalizing shares with
  | nil => rfl
  | cons st stl ih =>
    cases shares with
    | nil => cases hlen
    | cons sh shl =>
      have hshsid : sh.sid ≠ s := hsid sh (List.mem_cons_self sh shl)
      simp only [List.zipWith_cons_cons, List.map_cons]
      rw [ih shl (by simpa using hlen) (fun x hx => hsid x (List.mem_cons_of_mem sh hx))]
      rw [slookup_supsert_ne _ _ _ _ (fun h => hshsid h.symm)]

/-! ## Claim C10: delete is blocked by the ignore filter -/

/-- C10: whenever the path's base name matches an ignore rule at the
moment `delete` is called (`IsValidPath` is false), `DeleteFile` only
reports the ignored path: preferences, filesystem, backend stores and the
whole world are unchanged and no backend delete call is issued — even if
the path is currently tracked, so such a file can no longer be untracked
through `delete` and its remote shares are never removed. -/
theorem c10_delete_ignored (env : Env) (fuel : Nat) (w : World) (p : FPath)
    (h : IsValidPath env w.fs w.prefs.root p = false) :
    DeleteFile env (fuel + 1) w p = (w, [Event.report Report.ignoredPath]) := by
  simp only [DeleteFile, deleteLoop, h, if_true, deleteLoop_nil]

/-- Witness for C10: a world whose ignore rules match `a.txt`, where
`r/a.txt` is nevertheless tracked; deleting it leaves the world unchanged
and issues no backend call. -/
def c10World : World where
  prefs := { root := ["r"], folderStores := ["a", "b"], gdriveStores := [],
             fileMap := [(["r", "a.txt"], { sid := "s1", hash := "h1" })],
             dirMap := [] }
  fs := [(["r", ".chasmignore"], FSNode.file (Content.text ["a.txt"]))]
  stores := [[("s1", Content.text ["A"])], [("s1", Content.text ["B"])]]
  staging := [true, true]
  rng := 0

theorem c10_delete_ignored_witness :
    IsValidPath env0 c10World.fs c10World.prefs.root ["r", "a.txt"] = false ∧
      alookup c10World.prefs.fileMap ["r", "a.txt"] = some { sid := "s1", hash := "h1" } ∧
      DeleteFile env0 1 c10World ["r", "a.txt"] =
        (c10World, [Event.report Report.ignoredPath]) :=
  ⟨by decide, by decide, c10_delete_ignored env0 0 c10World ["r", "a.txt"] (by decide)⟩

/-! ## Claim C2: the setup gate -/

/-- C2: with fewer than 2 registered backends (`NeedSetup`), each of the
`add`, `delete` and `restore` operation surface entry points refuses to
act: the world is unchanged and the only event is the `SetupIncomplete`
report (in particular no backend call and no state mutation), and the
gate predicate is exactly `RegisteredServices < 2`. -/
theorem c2_setup_gate (env : Env) (fuel : Nat) (w : World) (p : FPath)
    (h : w.prefs.NeedSetup = true) :
    addCommand env fuel w p = (w, [Event.report Report.setupIncomplete]) ∧
      deleteCommand env fuel w p = (w, [Event.report Report.setupIncomplete]) ∧
      restoreCommand env w = (w, [Event.report Report.setupIncomplete]) ∧
      (w.prefs.NeedSetup = true ↔ w.prefs.RegisteredServices < 2) := by
  refine ⟨?_, ?_, ?_, ?_⟩
  · simp [addCommand, h]
  · simp [deleteCommand, h]
  · simp [restoreCommand, h]
  · simp [ChasmPref.NeedSetup]

/-- Witness for C2: a world with a single registered backend. -/
def c2World : World where
  prefs := { root := ["r"], folderStores := ["a"], gdriveStores := [],
             fileMap := [(["r", "f.txt"], { sid := "s1", hash := "h1" })],
             dirMap := [] }
  fs := [(["r", "f.txt"], FSNode.file (Content.text ["hello"]))]
  stores := [[]]
  staging := [true]
  rng := 0

theorem c2_setup_gate_witness :
    c2World.prefs.NeedSetup = true ∧
      addCommand env0 5 c2World ["r", "f.txt"] =
        (c2World, [Event.report Report.setupIncomplete]) ∧
      deleteCommand env0 5 c2World ["r", "f.txt"] =
        (c2World, [Event.report Report.setupIncomplete]) ∧
      restoreCommand env0 c2World = (c2World, [Event.report Report.setupIncomplete]) :=
  have h := c2_setup_gate env0 5 c2World ["r", "f.txt"] (by decide)
  ⟨by decide, h.1, h.2.1, h.2.2.1⟩

/-! ## Claim C3: all-or-nothing staging -/

/-- If some staging flag is down, the zipped staging work list contains a
failing pair. -/
theorem zip_staging_false (acs : List StoreRef) (st : List Bool)
    (hlen : st.length = acs.length) (h : false ∈ st) :
    ∃ x ∈ acs.zip st, x.2 = false := by
  induction acs generalizing st with
  | nil =>
    cases st with
    | nil => simp at h
    | cons _ _ => cases hlen
  | cons a as ih =>
    cases st with
    | nil => simp at h
    | cons b bs =>
      rcases List.mem_cons.mp h with hb | hb
      · exact ⟨(a, b), by simp, hb.symm⟩
      · obtain ⟨x, hx, hxf⟩ := ih bs (by simpa using hlen) hb
        exact ⟨x, List.mem_cons_of_mem _ hx, hxf⟩

/-- C3: if any one registered backend fails to produce a staging location,
`Restore` reports total failure: the world (preferences, filesystem,
backend stores) is returned unchanged, no file is written and no
directory is created — the only events are the staging attempts and the
failure report. -/
theorem c3_restore_all_or_nothing (env : Env) (w : World)
    (hlen : w.staging.length = w.prefs.AllCloudStores.length)
    (hbad : false ∈ w.staging) :
    (Restore env w).1 = w ∧
      Event.report Report.restoreFailed ∈ (Restore env w).2 ∧
      (∀ f c, Event.wrote f c ∉ (Restore env w).2) ∧
      (∀ d, Event.mkdir d ∉ (Restore env w).2) := by
  have hz := zip_staging_false w.prefs.AllCloudStores w.staging hlen hbad
  have hsl := stageLoop_has_false (w.prefs.AllCloudStores.zip w.staging) hz
  have hres : Restore env w = (w, (stageLoop (w.prefs.AllCloudStores.zip w.staging)).1) := by
    simp only [Restore]
    rw [hsl.1]
    simp
  rw [hres]
  refine ⟨rfl, hsl.2.1, ?_, ?_⟩
  · intro f c hmem
    rcases hsl.2.2 _ hmem with ⟨cs, h⟩ | h <;> cases h
  · intro d hmem
    rcases hsl.2.2 _ hmem with ⟨cs, h⟩ | h <;> cases h

/-- Witness for C3: two backends, the second unable to stage. -/
def c3World : World where
  prefs := { root := ["r"], folderStores := ["a", "b"], gdriveStores := [],
             fileMap := [(["r", "f.txt"], { sid := "s1", hash := "X" })],
             dirMap := [["r", "d"]] }
  fs := []
  stores := [[("s1", Content.text ["A"]), (".chasm", Content.text ["m"])],
             [("s1", Content.text ["B"]), (".chasm", Content.text ["m"])]]
  staging := [true, false]
  rng := 0

theorem c3_restore_all_or_nothing_witness :
    false ∈ c3World.staging ∧
      (Restore env0 c3World).1 = c3World ∧
      Event.report Report.restoreFailed ∈ (Restore env0 c3World).2 ∧
      (∀ f c, Event.wrote f c ∉ (Restore env0 c3World).2) :=
  have h := c3_restore_all_or_nothing env0 c3World (by decide) (by decide)
  ⟨by decide, h.1, h.2.1, h.2.2.1⟩

/-! ## Unfolding lemmas for single-file add and delete -/

/-- Adding a single regular file that is already tracked runs exactly the
file branch with the existing share id (idempotent identifiers). -/
theorem addFile_tracked_eq (env : Env) (fuel : Nat) (w : World) (p : FPath)
    (c : Content) (ex : FileShare)
    (hvalid : IsValidPath env w.fs w.prefs.root p = true)
    (hfs : alookup w.fs p = some (FSNode.file c))
    (htr : alookup w.prefs.fileMap p = some ex) :
    AddFile env (fuel + 1) w p =
      ((addFileCore env w p c ex.sid w.rng).1, (addFileCore env w p c ex.sid w.rng).2) := by
  simp only [AddFile, addLoop, hvalid, hfs, htr, addLoop_nil]
  simp

/-- Adding a single regular file that is not yet tracked runs exactly the
file branch with a freshly drawn share id. -/
theorem addFile_untracked_eq (env : Env) (fuel : Nat) (w : World) (p : FPath)
    (c : Content)
    (hvalid : IsValidPath env w.fs w.prefs.root p = true)
    (hfs : alookup w.fs p = some (FSNode.file c))
    (htr : alookup w.prefs.fileMap p = none) :
    AddFile env (fuel + 1) w p =
      ((addFileCore env w p c (env.fresh w.rng) (w.rng + 1)).1,
       (addFileCore env w p c (env.fresh w.rng) (w.rng + 1)).2) := by
  simp only [AddFile, addLoop, hvalid, hfs, htr, addLoop_nil]
  simp

/-- Deleting a single path that is a tracked file (and not a tracked
directory) runs exactly the tracked-file branch. -/
theorem deleteFile_tracked_eq (env : Env) (fuel : Nat) (w : World) (p : FPath)
    (fshare : FileShare)
    (hvalid : IsValidPath env w.fs w.prefs.root p = true)
    (hdir : pmem w.prefs.dirMap (pathClean p) = false)
    (htr : alookup w.prefs.fileMap p = some fshare) :
    DeleteFile env (fuel + 1) w p =
      ((deleteFileCore w p fshare).1, (deleteFileCore w p fshare).2) := by
  simp only [DeleteFile, deleteLoop, hvalid, hdir, htr, deleteLoop_nil]
  simp

/-! ## Claim C9: positional stability of uploads -/

/-- The upload calls of an event log, in order. -/
def uploadsOf (evs : List Event) : List (StoreRef × Share) :=
  evs.filterMap (fun e => match e with
    | Event.upload cs sh => some (cs, sh)
    | _ => none)

/-- The backend enumeration has exactly `RegisteredServices` entries. -/
theorem AllCloudStores_length (p : ChasmPref) :
    p.AllCloudStores.length = p.RegisteredServices := by
  simp [ChasmPref.AllCloudStores, ChasmPref.RegisteredServices]

/-- The file branch of `AddFile` uploads exactly the shares produced by
`CreateShares`, paired positionally with the fixed backend enumeration. -/
theorem uploadsOf_addFileCore (env : Env) (w : World) (p : FPath) (c : Content)
    (sid : ShareID) (rng' : Nat) :
    uploadsOf (addFileCore env w p c sid rng').2 =
      w.prefs.AllCloudStores.zip (env.create c sid w.prefs.AllCloudStores.length) := by
  have hacs : ({ w.prefs with
      fileMap := aupsert w.prefs.fileMap p { sid := sid, hash := env.sha c } }).AllCloudStores =
      w.prefs.AllCloudStores := rfl
  have hpairs : ∀ l : List (StoreRef × Share),
      l.filterMap ((fun e => match e with
        | Event.upload cs sh => some (cs, sh)
        | _ => none) ∘ fun z => Event.upload z.1 z.2) = l := by
    intro l
    induction l with
    | nil => rfl
    | cons hd tl ih => simp [Function.comp, ih]
  simp only [addFileCore, hacs]
  by_cases h : sid = chasmPrefFile
  · simp [h, uploadsOf, List.filterMap_map, hpairs]
  · simp [h, uploadsOf, List.filterMap_append, List.filterMap_map, hpairs]

/-- C9: adding a regular file with `n` registered backends splits it into
exactly `n` shares and uploads share i to backend i, where the backend
enumeration is fixed and stable: all local folder backends in
configuration order followed by all drive backends in configuration
order.  The share id used is the tracked one (or a fresh draw). -/
theorem c9_positional_stability (env : Env) (fuel : Nat) (w : World) (p : FPath)
    (c : Content) (henv : EnvOK env)
    (hvalid : IsValidPath env w.fs w.prefs.root p = true)
    (hfs : alookup w.fs p = some (FSNode.file c)) :
    ∃ sid,
      (∀ ex, alookup w.prefs.fileMap p = some ex → sid = ex.sid) ∧
      (alookup w.prefs.fileMap p = none → sid = env.fresh w.rng) ∧
      (env.create c sid w.prefs.AllCloudStores.length).length = w.prefs.RegisteredServices ∧
      uploadsOf (AddFile env (fuel + 1) w p).2 =
        w.prefs.AllCloudStores.zip (env.create c sid w.prefs.AllCloudStores.length) ∧
      w.prefs.AllCloudStores =
        w.prefs.folderStores.map StoreRef.folder ++ w.prefs.gdriveStores.map StoreRef.gdrive := by
  cases htr : alookup w.prefs.fileMap p with
  | some ex =>
    refine ⟨ex.sid, ?_, ?_, ?_, ?_, rfl⟩
    · intro ex' hex'
      cases hex'
      rfl
    · intro hn
      cases hn
    · rw [henv.create_length, AllCloudStores_length]
    · rw [addFile_tracked_eq env fuel w p c ex hvalid hfs htr]
      exact uploadsOf_addFileCore env w p c ex.sid w.rng
  | none =>
    refine ⟨env.fresh w.rng, ?_, ?_, ?_, ?_, rfl⟩
    · intro ex' hex'
      cases hex'
    · intro _
      rfl
    · rw [henv.create_length, AllCloudStores_length]
    · rw [addFile_untracked_eq env fuel w p c hvalid hfs htr]
      exact uploadsOf_addFileCore env w p c (env.fresh w.rng) (w.rng + 1)

/-- Witness for C9: one folder backend and one drive backend. -/
def c9World : World where
  prefs := { root := ["r"], folderStores := ["lf"], gdriveStores := ["gd"],
             fileMap := [], dirMap := [] }
  fs := [(["r", "f.txt"], FSNode.file (Content.text ["x"]))]
  stores := [[], []]
  staging := [true, true]
  rng := 0

theorem c9_positional_stability_witness :
    IsValidPath env0 c9World.fs c9World.prefs.root ["r", "f.txt"] = true ∧
      alookup c9World.fs ["r", "f.txt"] = some (FSNode.file (Content.text ["x"])) ∧
      ∃ sid,
        (∀ ex, alookup c9World.prefs.fileMap ["r", "f.txt"] = some ex → sid = ex.sid) ∧
        (alookup c9World.prefs.fileMap ["r", "f.txt"] = none → sid = env0.fresh c9World.rng) ∧
        (env0.create (Content.text ["x"]) sid c9World.prefs.AllCloudStores.length).length =
          c9World.prefs.RegisteredServices ∧
        uploadsOf (AddFile env0 1 c9World ["r", "f.txt"]).2 =
          c9World.prefs.AllCloudStores.zip
            (env0.create (Content.text ["x"]) sid c9World.prefs.AllCloudStores.length) ∧
        c9World.prefs.AllCloudStores =
          c9World.prefs.folderStores.map StoreRef.folder ++
            c9World.prefs.gdriveStores.map StoreRef.gdrive :=
  ⟨by decide, by decide,
    c9_positional_stability env0 0 c9World ["r", "f.txt"] (Content.text ["x"])
      envOK_env0 (by decide) (by decide)⟩

/-! ## Claim C7: persistence after mutating operations -/

/-- Counterexample world for C7: two backends, an empty directory `r/d`
on disk, nothing tracked but the metadata path. -/
def c7World : World where
  prefs := { root := ["r"], folderStores := ["a", "b"], gdriveStores := [],
             fileMap := [(["r", ".chasm"], { sid := ".chasm", hash := "" })],
             dirMap := [] }
  fs := [(["r", "d"], FSNode.dir [])]
  stores := [[], []]
  staging := [true, true]
  rng := 0

/-- C7 counterexample: adding the empty directory `r/d` mutates the
coordinator state (its `DirMap` gains the directory) yet the operation
returns with no `saved` event and an unchanged filesystem — the state is
not persisted, contradicting the claim that every mutating Add is
followed by a persist. -/
theorem c7_counterexample :
    c7World.prefs.dirMap = [] ∧
      (AddFile env0 1 c7World ["r", "d"]).1.prefs.dirMap = [["r", "d"]] ∧
      Event.saved ∉ (AddFile env0 1 c7World ["r", "d"]).2 ∧
      (AddFile env0 1 c7World ["r", "d"]).1.fs = c7World.fs ∧
      (AddFile env0 1 c7World ["r", "d"]).2 = [] := by
  decide

/-- C7 amended: adds and deletes of regular files persist the preferences
before returning (except when the share id being added is the reserved
`.chasm` id): the `saved` event fires and the metadata path on disk holds
the serialization of the final preferences.  Adding or deleting an empty
directory, however, mutates only the directory set and performs no
persist at all. -/
theorem c7_persist_amended (env : Env) (fuel : Nat) (w : World)
    (pf pd pe pg : FPath) (c : Content) (exf exg : FileShare)
    (hvf : IsValidPath env w.fs w.prefs.root pf = true)
    (hff : alookup w.fs pf = some (FSNode.file c))
    (htf : alookup w.prefs.fileMap pf = some exf)
    (hsf : exf.sid ≠ chasmPrefFile)
    (hvd : IsValidPath env w.fs w.prefs.root pd = true)
    (hfd : alookup w.fs pd = some (FSNode.dir []))
    (hve : IsValidPath env w.fs w.prefs.root pe = true)
    (hde : pmem w.prefs.dirMap (pathClean pe) = true)
    (hke : w.prefs.fileMap.filter
      (fun e => pathClean (parentDir e.1) == pathClean pe) = [])
    (hvg : IsValidPath env w.fs w.prefs.root pg = true)
    (hdg : pmem w.prefs.dirMap (pathClean pg) = false)
    (htg : alookup w.prefs.fileMap pg = some exg) :
    (Event.saved ∈ (AddFile env (fuel + 1) w pf).2 ∧
      alookup (AddFile env (fuel + 1) w pf).1.fs (pathJoin w.prefs.root chasmPrefFile) =
        some (FSNode.file (Content.encoded (AddFile env (fuel + 1) w pf).1.prefs.strip))) ∧
    (Event.saved ∈ (DeleteFile env (fuel + 1) w pg).2 ∧
      alookup (DeleteFile env (fuel + 1) w pg).1.fs (pathJoin w.prefs.root chasmPrefFile) =
        some (FSNode.file (Content.encoded (DeleteFile env (fuel + 1) w pg).1.prefs.strip))) ∧
    (AddFile env (fuel + 1) w pd =
      ({ w with prefs := { w.prefs with dirMap := pinsert w.prefs.dirMap (pathClean pd) } },
       []) ∧
      Event.saved ∉ (AddFile env (fuel + 1) w pd).2) ∧
    (DeleteFile env (fuel + 1) w pe =
      ({ w with prefs := { w.prefs with dirMap := perase w.prefs.dirMap (pathClean pe) } },
       []) ∧
      Event.saved ∉ (DeleteFile env (fuel + 1) w pe).2) := by
  have hdirAdd : AddFile env (fuel + 1) w pd =
      ({ w with prefs := { w.prefs with dirMap := pinsert w.prefs.dirMap (pathClean pd) } },
       []) := by
    simp only [AddFile, addLoop, hvd, hfd, List.map_nil, List.nil_append, addLoop_nil]
    simp
  have hdirDel : DeleteFile env (fuel + 1) w pe =
      ({ w with prefs := { w.prefs with dirMap := perase w.prefs.dirMap (pathClean pe) } },
       []) := by
    simp only [DeleteFile, deleteLoop, hve, hde, hke, List.map_nil, List.nil_append,
      deleteLoop_nil]
    simp
  refine ⟨?_, ?_, ⟨hdirAdd, ?_⟩, ⟨hdirDel, ?_⟩⟩
  · rw [addFile_tracked_eq env fuel w pf c exf hvf hff htf]
    simp only [addFileCore, hsf, if_neg hsf, ChasmPref.Save]
    constructor
    · simp
    · exact alookup_aupsert_self _ _ _
  · rw [deleteFile_tracked_eq env fuel w pg exg hvg hdg htg]
    simp only [deleteFileCore, ChasmPref.Save]
    constructor
    · simp
    · exact alookup_aupsert_self _ _ _
  · rw [hdirAdd]
    simp
  · rw [hdirDel]
    simp

/-- Witness world for the amended C7: file `r/f.txt` tracked, empty
directory `r/d` on disk, tracked empty directory `r/e`, tracked file
`r/g.txt` to delete. -/
def c7AmendedWorld : World where
  prefs := { root := ["r"], folderStores := ["a", "b"], gdriveStores := [],
             fileMap := [(["r", "f.txt"], { sid := "s1", hash := "h1" }),
                         (["r", "g.txt"], { sid := "s2", hash := "h2" })],
             dirMap := [["r", "e"]] }
  fs := [(["r", "f.txt"], FSNode.file (Content.text ["x"])),
         (["r", "d"], FSNode.dir [])]
  stores := [[], []]
  staging := [true, true]
  rng := 0

theorem c7_persist_amended_witness :
    (Event.saved ∈ (AddFile env0 1 c7AmendedWorld ["r", "f.txt"]).2 ∧
      alookup (AddFile env0 1 c7AmendedWorld ["r", "f.txt"]).1.fs
          (pathJoin c7AmendedWorld.prefs.root chasmPrefFile) =
        some (FSNode.file
          (Content.encoded (AddFile env0 1 c7AmendedWorld ["r", "f.txt"]).1.prefs.strip))) ∧
    (Event.saved ∈ (DeleteFile env0 1 c7AmendedWorld ["r", "g.txt"]).2 ∧
      alookup (DeleteFile env0 1 c7AmendedWorld ["r", "g.txt"]).1.fs
          (pathJoin c7AmendedWorld.prefs.root chasmPrefFile) =
        some (FSNode.file
          (Content.encoded (DeleteFile env0 1 c7AmendedWorld ["r", "g.txt"]).1.prefs.strip))) ∧
    (AddFile env0 1 c7AmendedWorld ["r", "d"] =
      ({ c7AmendedWorld with prefs := { c7AmendedWorld.prefs with
          dirMap := pinsert c7AmendedWorld.prefs.dirMap (pathClean ["r", "d"]) } }, []) ∧
      Event.saved ∉ (AddFile env0 1 c7AmendedWorld ["r", "d"]).2) ∧
    (DeleteFile env0 1 c7AmendedWorld ["r", "e"] =
      ({ c7AmendedWorld with prefs := { c7AmendedWorld.prefs with
          dirMap := perase c7AmendedWorld.prefs.dirMap (pathClean ["r", "e"]) } }, []) ∧
      Event.saved ∉ (DeleteFile env0 1 c7AmendedWorld ["r", "e"]).2) := by
  exact c7_persist_amended env0 0 c7AmendedWorld ["r", "f.txt"] ["r", "d"] ["r", "e"]
    ["r", "g.txt"] (Content.text ["x"]) { sid := "s1", hash := "h1" }
    { sid := "s2", hash := "h2" }
    (by decide) (by decide) (by decide) (by decide) (by decide) (by decide)
    (by decide) (by decide) (by decide) (by decide) (by decide) (by decide)

/-! ## Claim C6: the metadata path's fingerprint -/

/-- Every event of the staging pass is a staging attempt or the
total-failure report. -/
theorem stageLoop_events (l : List (StoreRef × Bool)) :
    ∀ e ∈ (stageLoop l).1,
      (∃ cs, e = Event.stage cs) ∨ e = Event.report Report.restoreFailed := by
  induction l with
  | nil => simp [stageLoop]
  | cons hd tl ih =>
    intro e he
    by_cases hhd : hd.2 = true
    · simp only [stageLoop, hhd, if_true] at he
      rcases List.mem_cons.mp he with he | he
      · exact Or.inl ⟨hd.1, he⟩
      · exact ih e he
    · have hhd' : hd.2 = false := by
        cases h2 : hd.2
        · rfl
        · exact absurd h2 hhd
      simp only [stageLoop, hhd', Bool.false_eq_true, if_false] at he
      simp only [List.mem_cons, List.mem_singleton] at he
      rcases he with he | he | he
      · exact Or.inl ⟨hd.1, he⟩
      · exact Or.inr he
      · simp at he

/-- Joining distinct names under the same root yields distinct paths. -/
theorem pathJoin_ne (root : FPath) (a b : String) (h : a ≠ b) :
    pathJoin root a ≠ pathJoin root b := by
  simp [pathJoin, h]

/-- C6 counterexample scenario: a fresh root initialization. -/
def c6Init : World where
  prefs := { root := [], folderStores := ["a", "b"], gdriveStores := [],
             fileMap := [], dirMap := [] }
  fs := []
  stores := [[], []]
  staging := [true, true]
  rng := 0

/-- The world right after `CreateOrLoadChasmDir` on the fresh root `r`. -/
def c6Loaded : World := CreateOrLoadChasmDir env0 c6Init ["r"]

/-- C6 counterexample: right after initialization the metadata path's
record carries the empty fingerprint, but `AddFile` invoked on the
metadata path itself overwrites it with the real content fingerprint
(`env0.sha _ = "X" ≠ ""`) — so a reachable state stores a non-sentinel
fingerprint for the metadata path, contradicting the claimed invariant. -/
theorem c6_counterexample :
    alookup c6Loaded.prefs.fileMap ["r", ".chasm"] =
        some { sid := ".chasm", hash := "" } ∧
      alookup (AddFile env0 1 c6Loaded ["r", ".chasm"]).1.prefs.fileMap ["r", ".chasm"] =
        some { sid := ".chasm", hash := "X" } ∧
      ("X" : String) ≠ "" := by
  decide

/-- The contents of the metadata file on disk after the C6 initialization. -/
def c6MetaContent : Content :=
  match alookup c6Loaded.fs ["r", ".chasm"] with
  | some (FSNode.file c) => c
  | _ => Content.text []

/-- C6 amended: the fingerprint of the metadata path is an empty sentinel
at root initialization, and restore verification never applies to the
reserved `.chasm` identifier (no `IntegrityMismatch` for it is ever
reported, by any restore run); however `AddFile` invoked on a path whose
record carries the `.chasm` id overwrites the record with the real
content fingerprint. -/
theorem c6_amended (env : Env) (fuel : Nat) (w : World) (root p : FPath)
    (c : Content) (h0 : String)
    (hfresh : alookup (mkdirAllFS w.fs root) (pathJoin root chasmPrefFile) = none)
    (hvalid : IsValidPath env w.fs w.prefs.root p = true)
    (hfs : alookup w.fs p = some (FSNode.file c))
    (htr : alookup w.prefs.fileMap p = some { sid := chasmPrefFile, hash := h0 }) :
    alookup (CreateOrLoadChasmDir env w root).prefs.fileMap (pathJoin root chasmPrefFile) =
        some { sid := chasmPrefFile, hash := "" } ∧
      (∀ env' w', Event.report (Report.integrityMismatch chasmPrefFile) ∉
        (Restore env' w').2) ∧
      alookup (AddFile env (fuel + 1) w p).1.prefs.fileMap p =
        some { sid := chasmPrefFile, hash := env.sha c } := by
  refine ⟨?_, ?_, ?_⟩
  · simp only [CreateOrLoadChasmDir, hfresh]
    split
    · simp [alookup]
    · rw [alookup_aupsert_ne _ _ _ _
        (pathJoin_ne root chasmPrefFile chasmIgnoreFile (by decide))]
      simp [alookup]
  · intro env' w' hmem
    simp only [Restore] at hmem
    split at hmem
    · rcases stageLoop_events _ _ hmem with ⟨cs, h⟩ | h <;> cases h
    · split at hmem
      · rename_i restoredPrefs heq
        rw [restoreFiles_events, restoreDirs_events] at hmem
        simp only [List.mem_append, List.mem_singleton] at hmem
        rcases hmem with ((((hmem | hmem) | hmem) | hmem) | hmem)
        · rcases stageLoop_events _ _ hmem with ⟨cs, h⟩ | h <;> cases h
        · rcases restoreShareID_events env' w'.prefs.RegisteredServices w'.stores
            chasmPrefFile _ hmem with h | h <;> cases h
        · rcases List.mem_map.mp hmem with ⟨d, _, h⟩
          cases h
        · rcases List.mem_flatten.mp hmem with ⟨evs, hevs, hin⟩
          rcases List.mem_map.mp hevs with ⟨e', _, he'⟩
          subst he'
          have h := (stepEvents_integrity env' w'.prefs.RegisteredServices w'.stores
            e' chasmPrefFile).mp hin
          have hne : e'.2.sid ≠ chasmPrefFile := by
            have := h.2.2
            rcases Bool.and_eq_true_iff.mp this with ⟨h1, _⟩
            simpa [bne_iff_ne] using h1
          exact hne h.1.symm
        · cases hmem
      · simp only [List.mem_append, List.mem_singleton] at hmem
        rcases hmem with (hmem | hmem) | hmem
        · rcases stageLoop_events _ _ hmem with ⟨cs, h⟩ | h <;> cases h
        · rcases restoreShareID_events env' w'.prefs.RegisteredServices w'.stores
            chasmPrefFile _ hmem with h | h <;> cases h
        · cases hmem
  · rw [addFile_tracked_eq env fuel w p c { sid := chasmPrefFile, hash := h0 } hvalid hfs htr]
    simp only [addFileCore, if_pos rfl]
    exact alookup_aupsert_self _ _ _

theorem c6_amended_witness :
    alookup (CreateOrLoadChasmDir env0 c6Loaded ["r2"]).prefs.fileMap ["r2", ".chasm"] =
        some { sid := chasmPrefFile, hash := "" } ∧
      (∀ env' w', Event.report (Report.integrityMismatch chasmPrefFile) ∉
        (Restore env' w').2) ∧
      alookup (AddFile env0 1 c6Loaded ["r", ".chasm"]).1.prefs.fileMap ["r", ".chasm"] =
        some { sid := chasmPrefFile, hash := env0.sha c6MetaContent } := by
  exact c6_amended env0 0 c6Loaded ["r2"] ["r", ".chasm"] c6MetaContent ""
    (by decide) (by decide) (by decide) (by decide)

/-! ## The successful restore path -/

/-- In an association list with distinct keys, entries are determined by
their key. -/
theorem nodup_key_eq {β : Type} (m : List (FPath × β))
    (hnodup : (m.map Prod.fst).Nodup) (e1 e2 : FPath × β)
    (h1 : e1 ∈ m) (h2 : e2 ∈ m) (hk : e1.1 = e2.1) : e1 = e2 := by
  induction m with
  | nil => simp at h1
  | cons hd tl ih =>
    simp only [List.map_cons, List.nodup_cons] at hnodup
    rcases List.mem_cons.mp h1 with h1' | h1' <;> rcases List.mem_cons.mp h2 with h2' | h2'
    · rw [h1', h2']
    · exfalso
      have hm : e2.1 ∈ tl.map Prod.fst := List.mem_map_of_mem Prod.fst h2'
      rw [← hk, h1'] at hm
      exact hnodup.1 hm
    · exfalso
      have hm : e1.1 ∈ tl.map Prod.fst := List.mem_map_of_mem Prod.fst h1'
      rw [hk, h2'] at hm
      exact hnodup.1 hm
    · exact ih hnodup.2 h1' h2'

/-- When every backend can stage and the reserved metadata id combines
into a parseable manifest `q`, `Restore` runs the whole pipeline:
directories of `q` first, then every manifest file entry, with the event
log laid out in order. -/
theorem Restore_success_eq (env : Env) (w : World) (q : ChasmPref)
    (hstage : ∀ b ∈ w.staging, b = true)
    (hmeta : (restoreShareID env w.prefs.RegisteredServices w.stores chasmPrefFile).1 =
      Content.encoded q) :
    Restore env w =
      ({ w with
          prefs := { w.prefs with
            dirMap := (restoreDirs q.dirMap w.fs w.prefs.dirMap).2.1 },
          fs := (restoreFiles env w.prefs.RegisteredServices w.stores q.fileMap
            (restoreDirs q.dirMap w.fs w.prefs.dirMap).1).1 },
       (w.prefs.AllCloudStores.zip w.staging).map (fun x => Event.stage x.1) ++
         (restoreShareID env w.prefs.RegisteredServices w.stores chasmPrefFile).2 ++
         (restoreDirs q.dirMap w.fs w.prefs.dirMap).2.2 ++
         (restoreFiles env w.prefs.RegisteredServices w.stores q.fileMap
           (restoreDirs q.dirMap w.fs w.prefs.dirMap).1).2 ++
         [Event.report Report.done]) := by
  have hzip : ∀ x ∈ w.prefs.AllCloudStores.zip w.staging, x.2 = true := by
    intro x hx
    exact hstage x.2 (List.of_mem_zip hx).2
  have hsl := stageLoop_all_true _ hzip
  simp only [Restore, hsl, hmeta]
  simp

/-- The events of a successful restore, decomposed per source. -/
theorem Restore_success_events (env : Env) (w : World) (q : ChasmPref)
    (hstage : ∀ b ∈ w.staging, b = true)
    (hmeta : (restoreShareID env w.prefs.RegisteredServices w.stores chasmPrefFile).1 =
      Content.encoded q) :
    (Restore env w).2 =
      (w.prefs.AllCloudStores.zip w.staging).map (fun x => Event.stage x.1) ++
        (restoreShareID env w.prefs.RegisteredServices w.stores chasmPrefFile).2 ++
        q.dirMap.map Event.mkdir ++
        (q.fileMap.map (stepEvents env w.prefs.RegisteredServices w.stores)).flatten ++
        [Event.report Report.done] := by
  rw [Restore_success_eq env w q hstage hmeta]
  simp [restoreDirs_events, restoreFiles_events]

/-- In a successful restore, a `wrote` event appears exactly for the
manifest entries whose step outcome is a write, at their own path. -/
theorem Restore_success_wrote (env : Env) (w : World) (q : ChasmPref)
    (hstage : ∀ b ∈ w.staging, b = true)
    (hmeta : (restoreShareID env w.prefs.RegisteredServices w.stores chasmPrefFile).1 =
      Content.encoded q) (f : FPath) (c : Content) :
    (Event.wrote f c ∈ (Restore env w).2 ↔
      ∃ e ∈ q.fileMap, e.1 = f ∧
        stepOutcome env w.prefs.RegisteredServices w.stores e = some c) := by
  rw [Restore_success_events env w q hstage hmeta]
  simp only [List.mem_append, List.mem_singleton]
  constructor
  · intro hmem
    rcases hmem with ((((hmem | hmem) | hmem) | hmem) | hmem)
    · rcases List.mem_map.mp hmem with ⟨x, _, h⟩
      cases h
    · rcases restoreShareID_events env w.prefs.RegisteredServices w.stores
        chasmPrefFile _ hmem with h | h <;> cases h
    · rcases List.mem_map.mp hmem with ⟨d, _, h⟩
      cases h
    · rcases List.mem_flatten.mp hmem with ⟨evs, hevs, hin⟩
      rcases List.mem_map.mp hevs with ⟨e', he', heq⟩
      subst heq
      have h := (stepEvents_wrote env w.prefs.RegisteredServices w.stores e' f c).mp hin
      exact ⟨e', he', h.1, h.2⟩
    · cases hmem
  · intro ⟨e, he, hef, hout⟩
    refine Or.inl (Or.inr ?_)
    apply List.mem_flatten.mpr
    refine ⟨stepEvents env w.prefs.RegisteredServices w.stores e,
      List.mem_map_of_mem _ he, ?_⟩
    exact (stepEvents_wrote env w.prefs.RegisteredServices w.stores e f c).mpr ⟨hef, hout⟩

/-! ## Claim C5: integrity enforcement -/

/-- C5: during a restore run that reaches step (4) (all backends staged,
metadata manifest `q` reconstructed), a manifest entry whose id is not
the reserved `.chasm` id and whose nonempty candidate bytes fail the
fingerprint check is skipped with `IntegrityMismatch` and never written;
and any file that is written comes from a manifest entry whose
fingerprint check passed — the `.chasm` id being the sole identifier
exempt from the check. -/
theorem c5_integrity_enforcement (env : Env) (w : World) (q : ChasmPref)
    (f : FPath) (sh : FileShare)
    (hstage : ∀ b ∈ w.staging, b = true)
    (hmeta : (restoreShareID env w.prefs.RegisteredServices w.stores chasmPrefFile).1 =
      Content.encoded q)
    (hentry : (f, sh) ∈ q.fileMap)
    (hnodup : (q.fileMap.map Prod.fst).Nodup)
    (hsid : sh.sid ≠ chasmPrefFile)
    (hne : (restoreShareID env w.prefs.RegisteredServices w.stores sh.sid).1.isEmpty = false)
    (hbad : checkSHA2 env sh.hash
      (restoreShareID env w.prefs.RegisteredServices w.stores sh.sid).1 = false) :
    Event.report (Report.integrityMismatch sh.sid) ∈ (Restore env w).2 ∧
      (∀ c, Event.wrote f c ∉ (Restore env w).2) ∧
      (∀ g c, Event.wrote g c ∈ (Restore env w).2 →
        ∃ e ∈ q.fileMap, e.1 = g ∧
          (e.2.sid = chasmPrefFile ∨ env.sha c = e.2.hash)) := by
  have hguard : ((sh.sid != chasmPrefFile) && !(checkSHA2 env sh.hash
      (restoreShareID env w.prefs.RegisteredServices w.stores sh.sid).1)) = true := by
    simp [hbad, bne_iff_ne, hsid]
  refine ⟨?_, ?_, ?_⟩
  · rw [Restore_success_events env w q hstage hmeta]
    simp only [List.mem_append]
    refine Or.inl (Or.inr ?_)
    apply List.mem_flatten.mpr
    refine ⟨stepEvents env w.prefs.RegisteredServices w.stores (f, sh),
      List.mem_map_of_mem _ hentry, ?_⟩
    exact (stepEvents_integrity env w.prefs.RegisteredServices w.stores (f, sh) sh.sid).mpr
      ⟨rfl, hne, hguard⟩
  · intro c hmem
    rcases (Restore_success_wrote env w q hstage hmeta f c).mp hmem with ⟨e, he, hef, hout⟩
    have : e = (f, sh) := nodup_key_eq q.fileMap hnodup e (f, sh) he hentry hef
    subst this
    simp only [stepOutcome, hne, Bool.false_eq_true, if_false, hguard, if_true] at hout
    cases hout
  · intro g c hmem
    rcases (Restore_success_wrote env w q hstage hmeta g c).mp hmem with ⟨e, he, hef, hout⟩
    refine ⟨e, he, hef, ?_⟩
    simp only [stepOutcome] at hout
    by_cases hemp : (restoreShareID env w.prefs.RegisteredServices w.stores e.2.sid).1.isEmpty
    · rw [if_pos hemp] at hout
      cases hout
    · rw [if_neg hemp] at hout
      by_cases hg : ((e.2.sid != chasmPrefFile) && !(checkSHA2 env e.2.hash
          (restoreShareID env w.prefs.RegisteredServices w.stores e.2.sid).1)) = true
      · rw [if_pos hg] at hout
        cases hout
      · rw [if_neg hg] at hout
        cases hout
        cases hb : (e.2.sid != chasmPrefFile) with
        | false =>
          refine Or.inl ?_
          simpa [bne_iff_ne] using hb
        | true =>
          refine Or.inr ?_
          have hc : checkSHA2 env e.2.hash
              (restoreShareID env w.prefs.RegisteredServices w.stores e.2.sid).1 = true := by
            cases hcc : checkSHA2 env e.2.hash
                (restoreShareID env w.prefs.RegisteredServices w.stores e.2.sid).1
            · exact absurd (by simp [hb, hcc]) hg
            · rfl
          simpa [checkSHA2] using hc

/-- The recovered manifest used by the C5 witness: one user file `r/x`
under id `s1` with stored fingerprint `GOOD`. -/
def c5Manifest : ChasmPref where
  root := []
  folderStores := ["a", "b"]
  gdriveStores := []
  fileMap := [(["r", "x"], { sid := "s1", hash := "GOOD" })]
  dirMap := []

/-- The C5 witness world: both backends hold the metadata share and a
tampered piece for `s1` whose combined bytes no longer hash to `GOOD`. -/
def c5World : World where
  prefs := { root := ["r"], folderStores := ["a", "b"], gdriveStores := [],
             fileMap := [(["r", ".chasm"], { sid := ".chasm", hash := "" })],
             dirMap := [] }
  fs := []
  stores := [[(".chasm", Content.encoded c5Manifest), ("s1", Content.text ["evil"])],
             [(".chasm", Content.encoded c5Manifest), ("s1", Content.text ["evil"])]]
  staging := [true, true]
  rng := 0

theorem c5_integrity_enforcement_witness :
    checkSHA2 env0 "GOOD"
        (restoreShareID env0 c5World.prefs.RegisteredServices c5World.stores "s1").1 = false ∧
      Event.report (Report.integrityMismatch "s1") ∈ (Restore env0 c5World).2 ∧
      (∀ c, Event.wrote ["r", "x"] c ∉ (Restore env0 c5World).2) ∧
      (∀ g c, Event.wrote g c ∈ (Restore env0 c5World).2 →
        ∃ e ∈ c5Manifest.fileMap, e.1 = g ∧
          (e.2.sid = chasmPrefFile ∨ env0.sha c = e.2.hash)) :=
  have h := c5_integrity_enforcement env0 c5World c5Manifest ["r", "x"]
    { sid := "s1", hash := "GOOD" }
    (by decide) (by decide) (by decide) (by decide) (by decide) (by decide) (by decide)
  ⟨by decide, h.1, h.2.1, h.2.2⟩

/-! ## Claim C4: per-file degradation -/

/-- C4: during a restore run that reaches step (4), if at least one
staging location lacks the piece for one manifest file's id while every
other manifest entry has an intact candidate, the run completes (the
`done` report fires): exactly that one file is skipped with
`InsufficientShares` and nothing is written for it, while every other
manifest entry is written with its reconstructed candidate bytes. -/
theorem c4_per_file_degradation (env : Env) (w : World) (q : ChasmPref)
    (fb : FPath) (shb : FileShare)
    (hstage : ∀ b ∈ w.staging, b = true)
    (hlen : w.stores.length = w.prefs.RegisteredServices)
    (hmeta : (restoreShareID env w.prefs.RegisteredServices w.stores chasmPrefFile).1 =
      Content.encoded q)
    (hentry : (fb, shb) ∈ q.fileMap)
    (hnodup : (q.fileMap.map Prod.fst).Nodup)
    (hmiss : ∃ st ∈ w.stores, slookup st shb.sid = none)
    (hgood : ∀ e ∈ q.fileMap, e.1 ≠ fb →
      (restoreShareID env w.prefs.RegisteredServices w.stores e.2.sid).1.isEmpty = false ∧
      (e.2.sid = chasmPrefFile ∨ checkSHA2 env e.2.hash
        (restoreShareID env w.prefs.RegisteredServices w.stores e.2.sid).1 = true)) :
    Event.report (Report.insufficientShares shb.sid) ∈ (Restore env w).2 ∧
      (∀ c, Event.wrote fb c ∉ (Restore env w).2) ∧
      (∀ e ∈ q.fileMap, e.1 ≠ fb →
        Event.wrote e.1
          ((restoreShareID env w.prefs.RegisteredServices w.stores e.2.sid).1) ∈
          (Restore env w).2) ∧
      Event.report Report.done ∈ (Restore env w).2 := by
  have hmissRes := restoreShareID_missing env w.prefs.RegisteredServices w.stores
    shb.sid hlen hmiss
  have hempB : (restoreShareID env w.prefs.RegisteredServices w.stores shb.sid).1.isEmpty =
      true := by
    rw [hmissRes.1]
    rfl
  refine ⟨?_, ?_, ?_, ?_⟩
  · rw [Restore_success_events env w q hstage hmeta]
    simp only [List.mem_append]
    refine Or.inl (Or.inr ?_)
    apply List.mem_flatten.mpr
    refine ⟨stepEvents env w.prefs.RegisteredServices w.stores (fb, shb),
      List.mem_map_of_mem _ hentry, ?_⟩
    simp only [stepEvents, hempB, if_true]
    exact hmissRes.2
  · intro c hmem
    rcases (Restore_success_wrote env w q hstage hmeta fb c).mp hmem with ⟨e, he, hef, hout⟩
    have : e = (fb, shb) := nodup_key_eq q.fileMap hnodup e (fb, shb) he hentry hef
    subst this
    simp only [stepOutcome, hempB, if_true] at hout
    cases hout
  · intro e he hne
    apply (Restore_success_wrote env w q hstage hmeta e.1
      ((restoreShareID env w.prefs.RegisteredServices w.stores e.2.sid).1)).mpr
    refine ⟨e, he, rfl, ?_⟩
    have hg := hgood e he hne
    have hguard : ((e.2.sid != chasmPrefFile) && !(checkSHA2 env e.2.hash
        (restoreShareID env w.prefs.RegisteredServices w.stores e.2.sid).1)) = false := by
      rcases hg.2 with h | h
      · simp [h]
      · simp [h]
    simp only [stepOutcome]
    rw [hg.1, hguard]
    simp
  · rw [Restore_success_events env w q hstage hmeta]
    simp only [List.mem_append, List.mem_singleton]
    exact Or.inr trivial

/-- The recovered manifest used by the C4 witness: two user files, ids
`s1` (intact everywhere) and `s2` (one backend missing it). -/
def c4Manifest : ChasmPref where
  root := []
  folderStores := ["a", "b"]
  gdriveStores := []
  fileMap := [(["r", "good.txt"], { sid := "s1", hash := "X" }),
              (["r", "bad.txt"], { sid := "s2", hash := "X" })]
  dirMap := []

/-- The C4 witness world: backend 0 lacks the piece for `s2`. -/
def c4World : World where
  prefs := { root := ["r"], folderStores := ["a", "b"], gdriveStores := [],
             fileMap := [(["r", ".chasm"], { sid := ".chasm", hash := "" })],
             dirMap := [] }
  fs := []
  stores := [[(".chasm", Content.encoded c4Manifest), ("s1", Content.text ["hello"])],
             [(".chasm", Content.encoded c4Manifest), ("s1", Content.text ["hello"]),
              ("s2", Content.text ["b"])]]
  staging := [true, true]
  rng := 0

theorem c4_per_file_degradation_witness :
    (∃ st ∈ c4World.stores, slookup st "s2" = none) ∧
      Event.report (Report.insufficientShares "s2") ∈ (Restore env0 c4World).2 ∧
      (∀ c, Event.wrote ["r", "bad.txt"] c ∉ (Restore env0 c4World).2) ∧
      Event.wrote ["r", "good.txt"]
        ((restoreShareID env0 c4World.prefs.RegisteredServices c4World.stores "s1").1) ∈
        (Restore env0 c4World).2 ∧
      Event.report Report.done ∈ (Restore env0 c4World).2 :=
  have h := c4_per_file_degradation env0 c4World c4Manifest ["r", "bad.txt"]
    { sid := "s2", hash := "X" }
    (by decide) (by decide) (by decide) (by decide) (by decide) (by decide) (by decide)
  ⟨by decide, h.1, h.2.1,
    h.2.2.1 (["r", "good.txt"], { sid := "s1", hash := "X" }) (by decide) (by decide),
    h.2.2.2⟩

/-! ## Claim C1: round trip -/

/-- Projection: the preferences after the file branch of `AddFile`. -/
theorem addFileCore_prefs (env : Env) (w : World) (p : FPath) (c : Content)
    (sid : ShareID) (rng' : Nat) :
    (addFileCore env w p c sid rng').1.prefs =
      { w.prefs with fileMap := aupsert w.prefs.fileMap p { sid := sid, hash := env.sha c } } := by
  simp only [addFileCore]
  split <;> rfl

/-- Projection: the backend stores after the file branch of `AddFile`. -/
theorem addFileCore_stores (env : Env) (w : World) (p : FPath) (c : Content)
    (sid : ShareID) (rng' : Nat) :
    (addFileCore env w p c sid rng').1.stores =
      List.zipWith (fun st sh => supsert st sh.sid sh.data) w.stores
        (env.create c sid w.prefs.AllCloudStores.length) := by
  simp only [addFileCore]
  split <;> rfl

/-- Projection: the staging flags are untouched by the file branch. -/
theorem addFileCore_staging (env : Env) (w : World) (p : FPath) (c : Content)
    (sid : ShareID) (rng' : Nat) :
    (addFileCore env w p c sid rng').1.staging = w.staging := by
  simp only [addFileCore]
  split <;> rfl

/-- Projection: adding under the reserved `.chasm` id skips the save. -/
theorem addFileCore_fs_chasm (env : Env) (w : World) (p : FPath) (c : Content)
    (rng' : Nat) :
    (addFileCore env w p c chasmPrefFile rng').1.fs = w.fs := by
  simp [addFileCore]

/-- Projection: adding under any other id saves the updated preferences
to the metadata path. -/
theorem addFileCore_fs_save (env : Env) (w : World) (p : FPath) (c : Content)
    (sid : ShareID) (rng' : Nat) (h : sid ≠ chasmPrefFile) :
    (addFileCore env w p c sid rng').1.fs =
      aupsert w.fs (pathJoin w.prefs.root chasmPrefFile)
        (FSNode.file (Content.encoded
          ({ w.prefs with
            fileMap := aupsert w.prefs.fileMap p { sid := sid, hash := env.sha c } }
            : ChasmPref).strip)) := by
  simp only [addFileCore, if_neg h, ChasmPref.Save]

/-- The C1 counterexample world: a zero-length file `r/f.txt`, two
backends, freshly initialized tracking state. -/
def c1World : World where
  prefs := { root := ["r"], folderStores := ["a", "b"], gdriveStores := [],
             fileMap := [(["r", ".chasm"], { sid := ".chasm", hash := "" })],
             dirMap := [] }
  fs := [(["r", "f.txt"], FSNode.file (Content.text []))]
  stores := [[], []]
  staging := [true, true]
  rng := 0

/-- The C1 counterexample run: add the empty file, share the metadata
file (as the CLI does after every operation), lose the disk, restore. -/
def c1Run : World × List Event :=
  Restore env0
    { (AddFile env0 1 (AddFile env0 1 c1World ["r", "f.txt"]).1 ["r", ".chasm"]).1 with
      fs := [] }

/-- C1 counterexample: for the zero-length file the round trip fails —
after a restore with every backend intact and every share present,
nothing is ever written to the file's path (the combined empty candidate
is taken for the missing-shares sentinel and skipped), even though other
entries (the metadata path) are written; the claim asserts the restored
bytes at `r/f.txt` equal the original empty bytes. -/
theorem c1_counterexample :
    alookup c1World.fs ["r", "f.txt"] = some (FSNode.file (Content.text [])) ∧
      (∀ b ∈ c1Run.1.staging, b = true) ∧
      c1Run.2.filter (fun e => match e with
        | Event.wrote p _ => p == ["r", "f.txt"]
        | _ => false) = [] ∧
      alookup c1Run.1.fs ["r", "f.txt"] = none ∧
      Event.report Report.done ∈ c1Run.2 := by
  decide

/-- Updating the `FileMap` does not change the registered backend count. -/
theorem RegisteredServices_fileMap (p : ChasmPref) (m : List (FPath × FileShare)) :
    ({ p with fileMap := m } : ChasmPref).RegisteredServices = p.RegisteredServices := rfl

/-- Updating the `FileMap` does not change the backend enumeration. -/
theorem AllCloudStores_fileMap (p : ChasmPref) (m : List (FPath × FileShare)) :
    ({ p with fileMap := m } : ChasmPref).AllCloudStores = p.AllCloudStores := rfl

/-- Stripping the root keeps the `FileMap`. -/
theorem strip_fileMap (p : ChasmPref) : p.strip.fileMap = p.fileMap := rfl

/-- Stripping the root keeps the `DirMap`. -/
theorem strip_dirMap (p : ChasmPref) : p.strip.dirMap = p.dirMap := rfl

/-- C1 amended: for every file F with nonempty contents that is added
(with all backends registered and reachable), followed by the metadata
self-share the CLI performs, and then restored, the bytes written back to
F's path by `Restore` are exactly F's original bytes (a unique write),
the fingerprint stored for F at add time is the fingerprint of those
restored bytes, and the restored filesystem holds F's original contents.
(The original claim also covered zero-length files; those are skipped by
the empty-candidate guard, see the counterexample.) -/
theorem c1_round_trip_amended (env : Env) (fuel1 fuel2 : Nat) (w w1 w2 : World)
    (F : FPath) (c : Content) (h0 : String)
    (henv : EnvOK env)
    (hn2 : 2 ≤ w.prefs.RegisteredServices)
    (hfm : w.prefs.fileMap =
      [(pathJoin w.prefs.root chasmPrefFile, { sid := chasmPrefFile, hash := h0 })])
    (hdm : w.prefs.dirMap = [])
    (hF : F ≠ pathJoin w.prefs.root chasmPrefFile)
    (hig : alookup w.fs (pathJoin w.prefs.root chasmIgnoreFile) = none)
    (hfs : alookup w.fs F = some (FSNode.file c))
    (hc : c.isEmpty = false)
    (hsid : env.fresh w.rng ≠ chasmPrefFile)
    (hstores : w.stores.length = w.prefs.RegisteredServices)
    (hstage : ∀ b ∈ w.staging, b = true)
    (hw1 : w1 = (AddFile env (fuel1 + 1) w F).1)
    (hw2 : w2 = (AddFile env (fuel2 + 1) w1 (pathJoin w.prefs.root chasmPrefFile)).1) :
    Event.wrote F c ∈ (Restore env w2).2 ∧
      (∀ d, Event.wrote F d ∈ (Restore env w2).2 → d = c) ∧
      alookup w2.prefs.fileMap F = some { sid := env.fresh w.rng, hash := env.sha c } ∧
      alookup (Restore env w2).1.fs F = some (FSNode.file c) := by
  have hacs : w.prefs.AllCloudStores.length = w.prefs.RegisteredServices :=
    AllCloudStores_length w.prefs
  have hchasmIg : chasmPrefFile ≠ chasmIgnoreFile := by decide
  have hMetaNeIg : pathJoin w.prefs.root chasmPrefFile ≠
      pathJoin w.prefs.root chasmIgnoreFile :=
    pathJoin_ne _ _ _ hchasmIg
  have hvF : IsValidPath env w.fs w.prefs.root F = true :=
    IsValidPath_no_ignore env w.fs w.prefs.root F hig
  have htrF : alookup w.prefs.fileMap F = none := by
    rw [hfm]
    simp [alookup, hF]
  have hw1' : w1 = (addFileCore env w F c (env.fresh w.rng) (w.rng + 1)).1 := by
    rw [hw1, addFile_untracked_eq env fuel1 w F c hvF hfs htrF]
  have hw1prefs : w1.prefs = { w.prefs with
      fileMap := aupsert w.prefs.fileMap F { sid := env.fresh w.rng, hash := env.sha c } } := by
    rw [hw1', addFileCore_prefs]
  have hw1root : w1.prefs.root = w.prefs.root := by rw [hw1prefs]
  have hw1fm : w1.prefs.fileMap =
      [(pathJoin w.prefs.root chasmPrefFile, { sid := chasmPrefFile, hash := h0 }),
       (F, { sid := env.fresh w.rng, hash := env.sha c })] := by
    rw [hw1prefs]
    show aupsert w.prefs.fileMap F _ = _
    rw [hfm]
    simp [aupsert, hF]
  have hw1dm : w1.prefs.dirMap = [] := by
    rw [hw1prefs]
    exact hdm
  have hw1stores : w1.stores = List.zipWith (fun st sh => supsert st sh.sid sh.data) w.stores
      (env.create c (env.fresh w.rng) w.prefs.AllCloudStores.length) := by
    rw [hw1', addFileCore_stores]
  have hw1staging : w1.staging = w.staging := by
    rw [hw1', addFileCore_staging]
  have hw1fs : w1.fs = aupsert w.fs (pathJoin w.prefs.root chasmPrefFile)
      (FSNode.file (Content.encoded w1.prefs.strip)) := by
    rw [hw1', addFileCore_fs_save env w F c (env.fresh w.rng) (w.rng + 1) hsid]
    rw [← hw1prefs, hw1']
  have hvM : IsValidPath env w1.fs w1.prefs.root (pathJoin w.prefs.root chasmPrefFile) =
      true := by
    apply IsValidPath_no_ignore
    rw [hw1root, hw1fs]
    rw [alookup_aupsert_ne _ _ _ _ (Ne.symm hMetaNeIg)]
    exact hig
  have hfsM : alookup w1.fs (pathJoin w.prefs.root chasmPrefFile) =
      some (FSNode.file (Content.encoded w1.prefs.strip)) := by
    rw [hw1fs]
    exact alookup_aupsert_self _ _ _
  have htrM : alookup w1.prefs.fileMap (pathJoin w.prefs.root chasmPrefFile) =
      some { sid := chasmPrefFile, hash := h0 } := by
    rw [hw1fm]
    simp [alookup]
  have hw2' : w2 = (addFileCore env w1 (pathJoin w.prefs.root chasmPrefFile)
      (Content.encoded w1.prefs.strip)
      ({ sid := chasmPrefFile, hash := h0 } : FileShare).sid w1.rng).1 := by
    rw [hw2, addFile_tracked_eq env fuel2 w1 (pathJoin w.prefs.root chasmPrefFile)
      (Content.encoded w1.prefs.strip) { sid := chasmPrefFile, hash := h0 } hvM hfsM htrM]
  have hw2fm : w2.prefs.fileMap = aupsert w1.prefs.fileMap
      (pathJoin w.prefs.root chasmPrefFile)
      { sid := chasmPrefFile, hash := env.sha (Content.encoded w1.prefs.strip) } := by
    rw [hw2', addFileCore_prefs]
  have hw2services : w2.prefs.RegisteredServices = w.prefs.RegisteredServices := by
    rw [hw2', addFileCore_prefs]
    rw [RegisteredServices_fileMap]
    rw [hw1prefs, RegisteredServices_fileMap]
  have hw2stores : w2.stores = List.zipWith (fun st sh => supsert st sh.sid sh.data) w1.stores
      (env.create (Content.encoded w1.prefs.strip) chasmPrefFile
        w.prefs.AllCloudStores.length) := by
    rw [hw2', addFileCore_stores]
    have : w1.prefs.AllCloudStores = w.prefs.AllCloudStores := by
      rw [hw1prefs, AllCloudStores_fileMap]
    rw [this]
  have hw2staging : w2.staging = w.staging := by
    rw [hw2', addFileCore_staging, hw1staging]
  have hw2dm : w2.prefs.dirMap = [] := by
    rw [hw2', addFileCore_prefs]
    show w1.prefs.dirMap = []
    exact hw1dm
  have hstage2 : ∀ b ∈ w2.staging, b = true := by
    rw [hw2staging]
    exact hstage
  -- lengths
  have hlen1 : w1.stores.length =
      (env.create c (env.fresh w.rng) w.prefs.AllCloudStores.length).length := by
    rw [hw1stores, List.length_zipWith, henv.create_length, hacs, hstores]
    simp
  have hlenM : w1.stores.length =
      (env.create (Content.encoded w1.prefs.strip) chasmPrefFile
        w.prefs.AllCloudStores.length).length := by
    rw [hlen1, henv.create_length, henv.create_length]
  -- reads of the metadata id after both uploads
  have hreadsM : w2.stores.map (fun st => slookup st chasmPrefFile) =
      (env.create (Content.encoded w1.prefs.strip) chasmPrefFile
        w.prefs.AllCloudStores.length).map (fun sh => some sh.data) := by
    rw [hw2stores]
    exact slookup_after_upload _ _ _ hlenM
      (henv.create_sid (Content.encoded w1.prefs.strip) chasmPrefFile _)
  have hlenM2 : (env.create (Content.encoded w1.prefs.strip) chasmPrefFile
      w.prefs.AllCloudStores.length).length = w.prefs.RegisteredServices := by
    rw [henv.create_length, hacs]
  have hmetaRes : restoreShareID env w.prefs.RegisteredServices w2.stores chasmPrefFile =
      (env.combine (env.create (Content.encoded w1.prefs.strip) chasmPrefFile
        w.prefs.AllCloudStores.length), []) :=
    restoreShareID_all_found env w.prefs.RegisteredServices w2.stores chasmPrefFile _
      hreadsM hlenM2 (henv.create_sid _ _ _)
  have hcombM : env.combine (env.create (Content.encoded w1.prefs.strip) chasmPrefFile
      w.prefs.AllCloudStores.length) = Content.encoded w1.prefs.strip := by
    rw [hacs]
    exact henv.combine_create _ _ _ (le_trans (by norm_num) hn2)
  have hmeta2 : (restoreShareID env w2.prefs.RegisteredServices w2.stores chasmPrefFile).1 =
      Content.encoded w1.prefs.strip := by
    rw [hw2services, hmetaRes, hcombM]
  -- reads of F's id after both uploads
  have hreadsF : w2.stores.map (fun st => slookup st (env.fresh w.rng)) =
      (env.create c (env.fresh w.rng) w.prefs.AllCloudStores.length).map
        (fun sh => some sh.data) := by
    rw [hw2stores]
    rw [slookup_after_upload_ne _ _ _ hlenM (fun sh hsh => by
      rw [henv.create_sid _ _ _ sh hsh]
      exact Ne.symm hsid)]
    rw [hw1stores]
    exact slookup_after_upload _ _ _ (by rw [henv.create_length, hacs, hstores])
      (henv.create_sid c (env.fresh w.rng) _)
  have hFRes : restoreShareID env w.prefs.RegisteredServices w2.stores (env.fresh w.rng) =
      (env.combine (env.create c (env.fresh w.rng) w.prefs.AllCloudStores.length), []) :=
    restoreShareID_all_found env w.prefs.RegisteredServices w2.stores (env.fresh w.rng) _
      hreadsF (by rw [henv.create_length, hacs]) (henv.create_sid _ _ _)
  have hcombF : env.combine (env.create c (env.fresh w.rng)
      w.prefs.AllCloudStores.length) = c := by
    rw [hacs]
    exact henv.combine_create _ _ _ (le_trans (by norm_num) hn2)
  have hFResX : (restoreShareID env w2.prefs.RegisteredServices w2.stores
      (env.fresh w.rng)).1 = c := by
    rw [hw2services, hFRes, hcombF]
  have hMResX : (restoreShareID env w2.prefs.RegisteredServices w2.stores
      chasmPrefFile).1 = Content.encoded w1.prefs.strip := hmeta2
  -- the manifest and its entries
  have hqfm : w1.prefs.strip.fileMap =
      [(pathJoin w.prefs.root chasmPrefFile, { sid := chasmPrefFile, hash := h0 }),
       (F, { sid := env.fresh w.rng, hash := env.sha c })] := by
    rw [strip_fileMap, hw1fm]
  have hqdm : w1.prefs.strip.dirMap = [] := by
    rw [strip_dirMap, hw1dm]
  -- per-entry outcomes
  have houtF : stepOutcome env w2.prefs.RegisteredServices w2.stores
      (F, { sid := env.fresh w.rng, hash := env.sha c }) = some c := by
    simp only [stepOutcome, hFResX]
    rw [hc]
    have hguard : ((env.fresh w.rng != chasmPrefFile) && !(checkSHA2 env (env.sha c) c)) =
        false := by
      simp [checkSHA2]
    simp only [Bool.false_eq_true, if_false, hguard]
  have houtM : stepOutcome env w2.prefs.RegisteredServices w2.stores
      (pathJoin w.prefs.root chasmPrefFile, { sid := chasmPrefFile, hash := h0 }) =
      some (Content.encoded w1.prefs.strip) := by
    simp only [stepOutcome, hMResX]
    have hguard : ((chasmPrefFile != chasmPrefFile) &&
        !(checkSHA2 env h0 (Content.encoded w1.prefs.strip))) = false := by
      simp
    simp only [Content.isEmpty, Bool.false_eq_true, if_false, hguard]
  refine ⟨?_, ?_, ?_, ?_⟩
  · apply (Restore_success_wrote env w2 w1.prefs.strip hstage2 hmeta2 F c).mpr
    refine ⟨(F, { sid := env.fresh w.rng, hash := env.sha c }), ?_, rfl, houtF⟩
    rw [hqfm]
    simp
  · intro d hmem
    rcases (Restore_success_wrote env w2 w1.prefs.strip hstage2 hmeta2 F d).mp hmem with
      ⟨e, he, hef, hout⟩
    rw [hqfm] at he
    simp only [List.mem_cons, List.mem_singleton, List.not_mem_nil, or_false] at he
    rcases he with he | he
    · subst he
      exact absurd hef.symm hF
    · subst he
      rw [houtF] at hout
      cases hout
      rfl
  · rw [hw2fm]
    rw [alookup_aupsert_ne _ _ _ _ hF]
    rw [hw1fm]
    simp [alookup, hF]
  · rw [Restore_success_eq env w2 w1.prefs.strip hstage2 hmeta2]
    show alookup (restoreFiles env w2.prefs.RegisteredServices w2.stores
      w1.prefs.strip.fileMap
      (restoreDirs w1.prefs.strip.dirMap w2.fs w2.prefs.dirMap).1).1 F = _
    rw [hqdm]
    show alookup (restoreFiles env w2.prefs.RegisteredServices w2.stores
      w1.prefs.strip.fileMap w2.fs).1 F = _
    rw [restoreFiles_fs, hqfm]
    simp only [List.foldl_cons, List.foldl_nil, houtF, houtM]
    exact alookup_aupsert_self _ _ _

/-- Witness world for the amended C1: a nonempty file `r/f.txt`. -/
def c1AmendedWorld : World where
  prefs := { root := ["r"], folderStores := ["a", "b"], gdriveStores := [],
             fileMap := [(["r", ".chasm"], { sid := ".chasm", hash := "" })],
             dirMap := [] }
  fs := [(["r", "f.txt"], FSNode.file (Content.text ["hello"]))]
  stores := [[], []]
  staging := [true, true]
  rng := 0

theorem c1_round_trip_amended_witness :
    Event.wrote ["r", "f.txt"] (Content.text ["hello"]) ∈
        (Restore env0 (AddFile env0 1 (AddFile env0 1 c1AmendedWorld ["r", "f.txt"]).1
          ["r", ".chasm"]).1).2 ∧
      (∀ d, Event.wrote ["r", "f.txt"] d ∈
          (Restore env0 (AddFile env0 1 (AddFile env0 1 c1AmendedWorld ["r", "f.txt"]).1
            ["r", ".chasm"]).1).2 → d = Content.text ["hello"]) ∧
      alookup (AddFile env0 1 (AddFile env0 1 c1AmendedWorld ["r", "f.txt"]).1
          ["r", ".chasm"]).1.prefs.fileMap ["r", "f.txt"] =
        some { sid := env0.fresh c1AmendedWorld.rng,
               hash := env0.sha (Content.text ["hello"]) } ∧
      alookup (Restore env0 (AddFile env0 1 (AddFile env0 1 c1AmendedWorld
          ["r", "f.txt"]).1 ["r", ".chasm"]).1).1.fs ["r", "f.txt"] =
        some (FSNode.file (Content.text ["hello"])) := by
  exact c1_round_trip_amended env0 0 0 c1AmendedWorld
    (AddFile env0 1 c1AmendedWorld ["r", "f.txt"]).1
    (AddFile env0 1 (AddFile env0 1 c1AmendedWorld ["r", "f.txt"]).1 ["r", ".chasm"]).1
    ["r", "f.txt"] (Content.text ["hello"]) ""
    envOK_env0 (by decide) (by decide) (by decide) (by decide) (by decide) (by decide)
    (by decide) (by decide) (by decide) (by decide) rfl rfl

/-! ## Claim C8: directory deletion is one level deep -/

theorem aerase_sublist {β : Type} (m : List (FPath × β)) (k : FPath) :
    (aerase m k).Sublist m := by
  induction m with
  | nil => simp [aerase]
  | cons hd tl ih =>
    obtain ⟨k', v'⟩ := hd
    by_cases h : k = k'
    · simp only [aerase]
      rw [if_pos h]
      exact List.sublist_cons_self _ _
    · simp only [aerase]
      rw [if_neg h]
      exact List.Sublist.cons₂ _ ih

theorem alookup_none_of_not_mem {β : Type} (m : List (FPath × β)) (k : FPath)
    (h : k ∉ m.map Prod.fst) : alookup m k = none := by
  induction m with
  | nil => rfl
  | cons hd tl ih =>
    simp only [List.map_cons, List.mem_cons, not_or] at h
    obtain ⟨k', v'⟩ := hd
    simp only [alookup]
    rw [if_neg h.1]
    exact ih h.2

theorem alookup_aerase_self {β : Type} (m : List (FPath × β)) (k : FPath)
    (hnodup : (m.map Prod.fst).Nodup) : alookup (aerase m k) k = none := by
  induction m with
  | nil => rfl
  | cons hd tl ih =>
    obtain ⟨k', v'⟩ := hd
    simp only [List.map_cons, List.nodup_cons] at hnodup
    by_cases h : k = k'
    · simp only [aerase]
      rw [if_pos h]
      subst h
      exact alookup_none_of_not_mem tl k hnodup.1
    · simp only [aerase]
      rw [if_neg h]
      simp only [alookup]
      rw [if_neg h]
      exact ih hnodup.2

theorem alookup_of_mem_nodup {β : Type} (m : List (FPath × β)) (e : FPath × β)
    (he : e ∈ m) (hnodup : (m.map Prod.fst).Nodup) : alookup m e.1 = some e.2 := by
  induction m with
  | nil => simp at he
  | cons hd tl ih =>
    obtain ⟨k', v'⟩ := hd
    simp only [List.map_cons, List.nodup_cons] at hnodup
    rcases List.mem_cons.mp he with he | he
    · subst he
      simp [alookup]
    · simp only [alookup]
      rw [if_neg ?_]
      · exact ih he hnodup.2
      · intro hk
        apply hnodup.1
        rw [← hk]
        exact List.mem_map_of_mem Prod.fst he

theorem alookup_foldl_aerase {β : Type} (ks : List FPath) :
    ∀ (m : List (FPath × β)), (m.map Prod.fst).Nodup → ∀ f,
      alookup (ks.foldl (fun acc k => aerase acc k) m) f =
        if f ∈ ks then none else alookup m f := by
  induction ks with
  | nil =>
    intro m _ f
    simp
  | cons k rest ih =>
    intro m hnodup f
    have hnodup' : ((aerase m k).map Prod.fst).Nodup :=
      hnodup.sublist ((aerase_sublist m k).map Prod.fst)
    simp only [List.foldl_cons]
    rw [ih (aerase m k) hnodup' f]
    by_cases hf : f ∈ rest
    · simp [hf]
    · by_cases hfk : f = k
      · subst hfk
        simp only [List.mem_cons, true_or, if_true, hf, if_false]
        exact alookup_aerase_self m f hnodup
      · simp only [List.mem_cons, hfk, hf, or_self, if_false]
        exact alookup_aerase_ne m k f hfk

theorem pmem_iff (l : List FPath) (p : FPath) : pmem l p = true ↔ p ∈ l := by
  simp only [pmem]
  exact List.elem_iff

theorem alookup_isSome_iff_mem_keys {β : Type} (m : List (FPath × β)) (k : FPath) :
    (alookup m k).isSome ↔ k ∈ m.map Prod.fst := by
  induction m with
  | nil => simp [alookup]
  | cons hd tl ih =>
    obtain ⟨k', v'⟩ := hd
    by_cases h : k = k'
    · subst h
      constructor
      · intro _
        rw [List.map_cons]
        exact List.mem_cons_self _ _
      · intro _
        simp only [alookup, if_true]
        rfl
    · simp only [alookup]
      rw [if_neg h, ih, List.map_cons]
      constructor
      · exact fun hm => List.mem_cons_of_mem _ hm
      · intro hm
        rcases List.mem_cons.mp hm with hm | hm
        · exact absurd hm h
        · exact hm

/-- The induction core for C8: running the delete work list over tracked
files (none of which is a tracked directory) removes exactly those
entries, keeps the directory set, root and backend configuration, and
issues backend delete calls exactly for the listed files' ids. -/
theorem deleteLoop_files (env : Env) (ks : List FPath) :
    ∀ (fuel : Nat) (w : World),
      alookup w.fs (pathJoin w.prefs.root chasmIgnoreFile) = none →
      (∀ k ∈ ks, pmem w.prefs.dirMap (pathClean k) = false) →
      (∀ k ∈ ks, k ∈ w.prefs.fileMap.map Prod.fst) →
      (w.prefs.fileMap.map Prod.fst).Nodup →
      ks.Nodup →
      ks.length + 1 ≤ fuel →
      (deleteLoop env fuel w ks).1.prefs.fileMap =
          ks.foldl (fun acc k => aerase acc k) w.prefs.fileMap ∧
        (deleteLoop env fuel w ks).1.prefs.dirMap = w.prefs.dirMap ∧
        (deleteLoop env fuel w ks).1.prefs.root = w.prefs.root ∧
        (deleteLoop env fuel w ks).1.prefs.folderStores = w.prefs.folderStores ∧
        (deleteLoop env fuel w ks).1.prefs.gdriveStores = w.prefs.gdriveStores ∧
        (∀ k ∈ ks, ∀ sh, alookup w.prefs.fileMap k = some sh →
          ∀ cs ∈ w.prefs.AllCloudStores,
            Event.bdelete cs sh.sid ∈ (deleteLoop env fuel w ks).2) ∧
        (∀ cs s, Event.bdelete cs s ∈ (deleteLoop env fuel w ks).2 →
          ∃ k ∈ ks, ∃ sh, alookup w.prefs.fileMap k = some sh ∧ sh.sid = s) := by
  induction ks with
  | nil =>
    intro fuel w _ _ _ _ _ _
    rw [deleteLoop_nil]
    refine ⟨rfl, rfl, rfl, rfl, rfl, ?_, ?_⟩
    · intro k hk
      simp at hk
    · intro cs s hmem
      simp at hmem
  | cons k rest ih =>
    intro fuel w hig hsub hkeys hnodup hnd hfuel
    match fuel, hfuel with
    | m + 1, hfuel =>
    have hvalid : IsValidPath env w.fs w.prefs.root k = true :=
      IsValidPath_no_ignore env w.fs w.prefs.root k hig
    have hdirk : pmem w.prefs.dirMap (pathClean k) = false :=
      hsub k (List.mem_cons_self k rest)
    have hksome : (alookup w.prefs.fileMap k).isSome :=
      (alookup_isSome_iff_mem_keys w.prefs.fileMap k).mpr
        (hkeys k (List.mem_cons_self k rest))
    obtain ⟨sh, hsh⟩ : ∃ sh, alookup w.prefs.fileMap k = some sh := by
      cases h : alookup w.prefs.fileMap k
      · rw [h] at hksome
        cases hksome
      · exact ⟨_, rfl⟩
    have hloopEq : deleteLoop env (m + 1) w (k :: rest) =
        ((deleteLoop env m (deleteFileCore w k sh).1 rest).1,
         (deleteFileCore w k sh).2 ++ (deleteLoop env m (deleteFileCore w k sh).1 rest).2) := by
      simp only [deleteLoop, hvalid, hdirk, hsh]
      simp
    set step := deleteFileCore w k sh with hstep
    have hsprefs : step.1.prefs =
        { w.prefs with fileMap := aerase w.prefs.fileMap k } := rfl
    have hsfs : step.1.fs = aupsert w.fs (pathJoin w.prefs.root chasmPrefFile)
        (FSNode.file (Content.encoded
          ({ w.prefs with fileMap := aerase w.prefs.fileMap k } : ChasmPref).strip)) := rfl
    have hsacs : step.1.prefs.AllCloudStores = w.prefs.AllCloudStores := rfl
    have hknd : k ∉ rest := (List.nodup_cons.mp hnd).1
    have hlookup' : ∀ k' ∈ rest, alookup step.1.prefs.fileMap k' =
        alookup w.prefs.fileMap k' := by
      intro k' hk'
      rw [hsprefs]
      show alookup (aerase w.prefs.fileMap k) k' = _
      exact alookup_aerase_ne w.prefs.fileMap k k' (fun h => hknd (h ▸ hk'))
    have hig' : alookup step.1.fs (pathJoin step.1.prefs.root chasmIgnoreFile) = none := by
      rw [hsfs]
      have hroot : step.1.prefs.root = w.prefs.root := rfl
      rw [hroot]
      rw [alookup_aupsert_ne _ _ _ _
        (Ne.symm (pathJoin_ne w.prefs.root chasmPrefFile chasmIgnoreFile (by decide)))]
      exact hig
    have hsub' : ∀ k' ∈ rest, pmem step.1.prefs.dirMap (pathClean k') = false := by
      intro k' hk'
      exact hsub k' (List.mem_cons_of_mem k hk')
    have hkeys' : ∀ k' ∈ rest, k' ∈ step.1.prefs.fileMap.map Prod.fst := by
      intro k' hk'
      apply (alookup_isSome_iff_mem_keys _ _).mp
      rw [hlookup' k' hk']
      exact (alookup_isSome_iff_mem_keys _ _).mpr (hkeys k' (List.mem_cons_of_mem k hk'))
    have hnodup' : (step.1.prefs.fileMap.map Prod.fst).Nodup := by
      rw [hsprefs]
      exact hnodup.sublist ((aerase_sublist w.prefs.fileMap k).map Prod.fst)
    have hnd' : rest.Nodup := (List.nodup_cons.mp hnd).2
    have hfuel' : rest.length + 1 ≤ m := by
      simp only [List.length_cons] at hfuel
      omega
    have IH := ih m step.1 hig' hsub' hkeys' hnodup' hnd' hfuel'
    have hstep2 : step.2 =
        (w.prefs.AllCloudStores.map (fun cs => Event.bdelete cs sh.sid)) ++
          [Event.saved] := rfl
    rw [hloopEq]
    refine ⟨?_, ?_, ?_, ?_, ?_, ?_, ?_⟩
    · show (deleteLoop env m step.1 rest).1.prefs.fileMap = _
      rw [IH.1, hsprefs]
      rfl
    · show (deleteLoop env m step.1 rest).1.prefs.dirMap = _
      rw [IH.2.1, hsprefs]
    · show (deleteLoop env m step.1 rest).1.prefs.root = _
      rw [IH.2.2.1, hsprefs]
    · show (deleteLoop env m step.1 rest).1.prefs.folderStores = _
      rw [IH.2.2.2.1, hsprefs]
    · show (deleteLoop env m step.1 rest).1.prefs.gdriveStores = _
      rw [IH.2.2.2.2.1, hsprefs]
    · intro k0 hk0 sh0 hsh0 cs hcs
      rcases List.mem_cons.mp hk0 with hk0 | hk0
      · subst hk0
        rw [hsh] at hsh0
        cases hsh0
        apply List.mem_append.mpr
        left
        rw [hstep2]
        apply List.mem_append.mpr
        left
        exact List.mem_map_of_mem _ hcs
      · apply List.mem_append.mpr
        right
        apply IH.2.2.2.2.2.1 k0 hk0 sh0
        · rw [hlookup' k0 hk0]
          exact hsh0
        · rw [hsacs]
          exact hcs
    · intro cs s hmem
      rcases List.mem_append.mp hmem with hmem | hmem
      · rw [hstep2] at hmem
        rcases List.mem_append.mp hmem with hmem | hmem
        · rcases List.mem_map.mp hmem with ⟨cs', hcs', heq⟩
          cases heq
          exact ⟨k, List.mem_cons_self k rest, sh, hsh, rfl⟩
        · simp at hmem
      · rcases IH.2.2.2.2.2.2 cs s hmem with ⟨k', hk', sh', hsh', hsid'⟩
        rw [hlookup' k' hk'] at hsh'
        exact ⟨k', List.mem_cons_of_mem k hk', sh', hsh', hsid'⟩

/-- C8 amended: deleting a tracked directory D removes D's
`DirectoryRecord` and exactly the tracked files whose immediate parent
directory (after path normalization) is D, issuing one backend delete per
backend for each such file — and nothing else: tracked files at deeper
levels keep their records and never receive a backend delete call, and
nested tracked subdirectories keep their `DirectoryRecord`s. -/
theorem c8_delete_dir_amended (env : Env) (fuel : Nat) (w : World) (D : FPath)
    (hig : alookup w.fs (pathJoin w.prefs.root chasmIgnoreFile) = none)
    (hdir : pmem w.prefs.dirMap (pathClean D) = true)
    (hdisj : ∀ e ∈ w.prefs.fileMap, pmem w.prefs.dirMap (pathClean e.1) = false)
    (hnodup : (w.prefs.fileMap.map Prod.fst).Nodup)
    (hfuel : w.prefs.fileMap.length + 2 ≤ fuel) :
    (DeleteFile env fuel w D).1.prefs.dirMap = perase w.prefs.dirMap (pathClean D) ∧
      (∀ f, alookup (DeleteFile env fuel w D).1.prefs.fileMap f =
        if pathClean (parentDir f) = pathClean D then none
        else alookup w.prefs.fileMap f) ∧
      (∀ e ∈ w.prefs.fileMap, pathClean (parentDir e.1) = pathClean D →
        ∀ cs ∈ w.prefs.AllCloudStores,
          Event.bdelete cs e.2.sid ∈ (DeleteFile env fuel w D).2) ∧
      (∀ cs s, Event.bdelete cs s ∈ (DeleteFile env fuel w D).2 →
        ∃ e ∈ w.prefs.fileMap, pathClean (parentDir e.1) = pathClean D ∧
          e.2.sid = s) := by
  match fuel, hfuel with
  | m + 1, hfuel =>
  have hvalidD : IsValidPath env w.fs w.prefs.root D = true :=
    IsValidPath_no_ignore env w.fs w.prefs.root D hig
  have hloopEq : DeleteFile env (m + 1) w D =
      deleteLoop env m
        { w with prefs := { w.prefs with dirMap := perase w.prefs.dirMap (pathClean D) } }
        ((({ w with prefs :=
            { w.prefs with dirMap := perase w.prefs.dirMap (pathClean D) } }
          : World).prefs.fileMap.filter
          (fun e => pathClean (parentDir e.1) == pathClean D)).map Prod.fst) := by
    simp only [DeleteFile, deleteLoop, hvalidD, hdir]
    simp
  have hw1fm : ({ w with prefs :=
      { w.prefs with dirMap := perase w.prefs.dirMap (pathClean D) } }
      : World).prefs.fileMap = w.prefs.fileMap := rfl
  rw [hw1fm] at hloopEq
  have hksmem : ∀ k, k ∈ ((w.prefs.fileMap.filter
      (fun e => pathClean (parentDir e.1) == pathClean D)).map Prod.fst) ↔
      ∃ e ∈ w.prefs.fileMap, e.1 = k ∧ pathClean (parentDir e.1) = pathClean D := by
    intro k
    constructor
    · intro hk
      rcases List.mem_map.mp hk with ⟨e, hef, hek⟩
      rcases List.mem_filter.mp hef with ⟨he, hcond⟩
      exact ⟨e, he, hek, by simpa using hcond⟩
    · intro ⟨e, he, hek, hmatch⟩
      apply List.mem_map.mpr
      exact ⟨e, List.mem_filter.mpr ⟨he, by simpa using hmatch⟩, hek⟩
  have hIH := deleteLoop_files env
    ((w.prefs.fileMap.filter
      (fun e => pathClean (parentDir e.1) == pathClean D)).map Prod.fst) m
    { w with prefs := { w.prefs with dirMap := perase w.prefs.dirMap (pathClean D) } }
    (by exact hig)
    (by
      intro k hk
      rcases (hksmem k).mp hk with ⟨e, he, hek, _⟩
      show pmem (perase w.prefs.dirMap (pathClean D)) (pathClean k) = false
      cases hp : pmem (perase w.prefs.dirMap (pathClean D)) (pathClean k)
      · rfl
      · exfalso
        have hmem := (pmem_iff _ _).mp hp
        have hmem' : pathClean k ∈ w.prefs.dirMap := List.mem_of_mem_erase hmem
        have := hdisj e he
        rw [hek] at this
        have htrue := (pmem_iff _ _).mpr hmem'
        rw [this] at htrue
        cases htrue)
    (by
      intro k hk
      rcases (hksmem k).mp hk with ⟨e, he, hek, _⟩
      show k ∈ w.prefs.fileMap.map Prod.fst
      rw [← hek]
      exact List.mem_map_of_mem Prod.fst he)
    (by exact hnodup)
    (by
      apply hnodup.sublist
      exact (List.filter_sublist w.prefs.fileMap).map Prod.fst)
    (by
      have hle : ((w.prefs.fileMap.filter
          (fun e => pathClean (parentDir e.1) == pathClean D)).map Prod.fst).length ≤
          w.prefs.fileMap.length := by
        rw [List.length_map]
        exact List.length_filter_le _ _
      omega)
  rw [hloopEq]
  refine ⟨?_, ?_, ?_, ?_⟩
  · rw [hIH.2.1]
  · intro f
    rw [hIH.1]
    show alookup (List.foldl _ w.prefs.fileMap _) f = _
    rw [alookup_foldl_aerase _ w.prefs.fileMap hnodup f]
    by_cases hmatch : pathClean (parentDir f) = pathClean D
    · rw [if_pos hmatch]
      by_cases hk : f ∈ ((w.prefs.fileMap.filter
          (fun e => pathClean (parentDir e.1) == pathClean D)).map Prod.fst)
      · rw [if_pos hk]
      · rw [if_neg hk]
        apply alookup_none_of_not_mem
        intro hmemk
        apply hk
        rcases List.mem_map.mp hmemk with ⟨e, he, hek⟩
        exact (hksmem f).mpr ⟨e, he, hek, by rw [hek]; exact hmatch⟩
    · rw [if_neg hmatch]
      rw [if_neg ?_]
      intro hk
      rcases (hksmem f).mp hk with ⟨e, _, hek, hm⟩
      rw [hek] at hm
      exact hmatch hm
  · intro e he hmatch cs hcs
    apply hIH.2.2.2.2.2.1 e.1
    · exact (hksmem e.1).mpr ⟨e, he, rfl, hmatch⟩
    · show alookup w.prefs.fileMap e.1 = some e.2
      exact alookup_of_mem_nodup w.prefs.fileMap e he hnodup
    · exact hcs
  · intro cs s hmem
    rcases hIH.2.2.2.2.2.2 cs s hmem with ⟨k, hk, sh, hsh, hsid⟩
    rcases (hksmem k).mp hk with ⟨e, he, hek, hm⟩
    have : alookup w.prefs.fileMap k = some e.2 := by
      rw [← hek]
      exact alookup_of_mem_nodup w.prefs.fileMap e he hnodup
    rw [this] at hsh
    cases hsh
    exact ⟨e, he, hm, hsid⟩

/-- The C8 counterexample world: directory `r/d` with an immediate child
`r/d/a.txt` and a nested tracked subdirectory `r/d/sub` holding
`r/d/sub/b.txt`. -/
def c8World : World where
  prefs := { root := ["r"], folderStores := ["a", "b"], gdriveStores := [],
             fileMap := [(["r", "d", "a.txt"], { sid := "s1", hash := "h1" }),
                         (["r", "d", "sub", "b.txt"], { sid := "s2", hash := "h2" })],
             dirMap := [["r", "d"], ["r", "d", "sub"]] }
  fs := []
  stores := [[("s1", Content.text ["A"]), ("s2", Content.text ["B"])],
             [("s1", Content.text ["A"]), ("s2", Content.text ["B"])]]
  staging := [true, true]
  rng := 0

/-- C8 counterexample: deleting the tracked directory `r/d` removes only
its immediate child `r/d/a.txt` (with backend deletes for `s1`), while
the nested tracked subdirectory `r/d/sub` and its file `r/d/sub/b.txt`
survive and no backend delete is ever issued for `s2` — contradicting
the claim that all files under D at every depth and nested
subdirectories are removed. -/
theorem c8_counterexample :
    pmem c8World.prefs.dirMap (pathClean ["r", "d"]) = true ∧
      (DeleteFile env0 10 c8World ["r", "d"]).1.prefs.fileMap =
        [(["r", "d", "sub", "b.txt"], { sid := "s2", hash := "h2" })] ∧
      (DeleteFile env0 10 c8World ["r", "d"]).1.prefs.dirMap = [["r", "d", "sub"]] ∧
      Event.bdelete (StoreRef.folder "a") "s1" ∈ (DeleteFile env0 10 c8World ["r", "d"]).2 ∧
      Event.bdelete (StoreRef.folder "a") "s2" ∉
        (DeleteFile env0 10 c8World ["r", "d"]).2 ∧
      Event.bdelete (StoreRef.folder "b") "s2" ∉
        (DeleteFile env0 10 c8World ["r", "d"]).2 := by
  decide

theorem c8_delete_dir_amended_witness :
    (DeleteFile env0 10 c8World ["r", "d"]).1.prefs.dirMap =
        perase c8World.prefs.dirMap (pathClean ["r", "d"]) ∧
      (∀ f, alookup (DeleteFile env0 10 c8World ["r", "d"]).1.prefs.fileMap f =
        if pathClean (parentDir f) = pathClean ["r", "d"] then none
        else alookup c8World.prefs.fileMap f) ∧
      (∀ e ∈ c8World.prefs.fileMap,
        pathClean (parentDir e.1) = pathClean ["r", "d"] →
        ∀ cs ∈ c8World.prefs.AllCloudStores,
          Event.bdelete cs e.2.sid ∈ (DeleteFile env0 10 c8World ["r", "d"]).2) ∧
      (∀ cs s, Event.bdelete cs s ∈ (DeleteFile env0 10 c8World ["r", "d"]).2 →
        ∃ e ∈ c8World.prefs.fileMap,
          pathClean (parentDir e.1) = pathClean ["r", "d"] ∧ e.2.sid = s) := by
  exact c8_delete_dir_amended env0 10 c8World ["r", "d"]
    (by decide) (by decide) (by decide) (by decide) (by decide)
